import Mathlib

/-!
Verification of the setup-data repository's schema-driven generation and
dependency-ordering engine.  The definitions below are shallow embeddings of
the JavaScript sources: `src/transformers/index.js` (case transformer),
`src/csharp-parser/index.js` (entity parser, dependency graph, topological
sort), the C# mock-data generator (`generateMockData`, `generateValueForProperty`,
`generateAllEntities`) and `src/generators/index.js` (JSON-schema driven
generation).  JavaScript strings are `String`/`List Char`, JavaScript values
are the inductive `JsValue`, JavaScript objects are insertion-ordered
association lists with assignment (replace-or-append) semantics, and the two
sources of randomness — the seeded faker stream and the unseeded
`Math.random()` stream — are explicit streams of draws.
-/

set_option maxHeartbeats 2000000
set_option maxRecDepth 4000
set_option linter.unusedVariables false

namespace SetupData

/-! ### JavaScript character and string primitives -/

/-- JavaScript `\s` restricted to ASCII: space, tab, line feed, vertical tab,
form feed, carriage return. -/
def jsIsSpace (c : Char) : Bool :=
  c = ' ' || c = '\t' || c = '\n' || c = '\r' || c.toNat = 11 || c.toNat = 12

/-- JavaScript `\w`: ASCII letters, digits and underscore. -/
def jsIsWordChar (c : Char) : Bool :=
  c.isAlpha || c.isDigit || c = '_'

/-- `sub` occurs as a contiguous substring of `s` (JavaScript `includes`). -/
def jsIncludes (s sub : String) : Bool :=
  s.toList.tails.any fun t => sub.toList.isPrefixOf t

/-- JavaScript `startsWith`. -/
def jsStartsWith (s pre : String) : Bool :=
  pre.toList.isPrefixOf s.toList

/-- JavaScript `endsWith`. -/
def jsEndsWith (s suffix : String) : Bool :=
  suffix.toList.reverse.isPrefixOf s.toList.reverse

/-- JavaScript `toLowerCase` (ASCII). -/
def jsStrLower (s : String) : String :=
  String.mk (s.toList.map Char.toLower)

/-- JavaScript `toUpperCase` (ASCII). -/
def jsStrUpper (s : String) : String :=
  String.mk (s.toList.map Char.toUpper)

/-- JavaScript `slice(0, -n)`: the string without its last `n` characters. -/
def jsDropLast (s : String) (n : Nat) : String :=
  String.mk (s.toList.take (s.toList.length - n))

/-- JavaScript `trim` (ASCII whitespace on both ends). -/
def jsTrim (s : String) : String :=
  String.mk (((s.toList.dropWhile jsIsSpace).reverse.dropWhile jsIsSpace).reverse)

/-- JavaScript `split` on a single-character separator (every separator in
this repository is one character: `'\n'`, `','`, `'='`). -/
def jsSplitChar (sep : Char) : List Char → List (List Char)
  | [] => [[]]
  | c :: t =>
    let r := jsSplitChar sep t
    if c = sep then [] :: r
    else
      match r with
      | h :: t2 => (c :: h) :: t2
      | [] => [[c]]

/-- `split` on a single-character separator, on strings. -/
def jsSplitCharS (sep : Char) (s : String) : List String :=
  (jsSplitChar sep s.toList).map String.mk

/-! ### JavaScript values

`null` and `undefined` are distinct; `nan` models the `NaN` number produced by
failed `parseInt`/`parseFloat`.  Objects are insertion-ordered association
lists. -/

inductive JsValue where
  | null
  | undef
  | nan
  | bool (b : Bool)
  | int (n : Int)
  | num (q : Rat)
  | str (s : String)
  | arr (items : List JsValue)
  | obj (entries : List (String × JsValue))
deriving Repr

/-- A generated record: one JavaScript object. -/
abbrev JsRecord := List (String × JsValue)

/-- JavaScript object assignment `o[k] = v`: overwrite in place when the key
exists (keeping its position), append otherwise. -/
def jsAssign (l : List (String × α)) (k : String) (v : α) : List (String × α) :=
  if l.any fun p => p.1 = k then
    l.map fun p => if p.1 = k then (k, v) else p
  else l ++ [(k, v)]

/-- Key lookup on a JavaScript object (first entry; keys are unique). -/
def jsGet (l : List (String × α)) (k : String) : Option α :=
  (l.find? fun p => p.1 = k).map fun p => p.2

/-! ### Case transformer (`src/transformers/index.js`) -/

/-- `str.toLowerCase().endsWith('id')`, the guard of the `Id`-suffix special
case in `toPascalCase`/`toCamelCase`. -/
def lowerEndsId (l : List Char) : Bool :=
  (l.map Char.toLower).reverse.take 2 == ['d', 'i']

/-- One left-to-right pass of `replace(/[-_](\w)/g, (_, c) => c.toUpperCase())`:
a separator followed by a word character is replaced by the upper-cased word
character; on failure the scan advances one character. -/
def pascalScan : List Char → List Char
  | [] => []
  | c :: rest =>
    if c = '-' || c = '_' then
      match rest with
      | [] => [c]
      | d :: rest2 =>
        if jsIsWordChar d then d.toUpper :: pascalScan rest2
        else c :: pascalScan (d :: rest2)
    else c :: pascalScan rest

/-- `replace(/^\w/, c => c.toUpperCase())`. -/
def capitalizeFirst : List Char → List Char
  | [] => []
  | c :: t => if jsIsWordChar c then c.toUpper :: t else c :: t

/-- Recursion core of `toPascalCase`.  The source recursion strips a trailing
`id` (two characters) per step, so `l.length + 1` units of fuel always
suffice; the fuel-0 branch is never reached on that budget. -/
def toPascalCaseGo : Nat → List Char → List Char
  | 0, _ => []
  | fuel + 1, l =>
    if lowerEndsId l then
      toPascalCaseGo fuel (l.take (l.length - 2)) ++ ['I', 'd']
    else
      capitalizeFirst (pascalScan l)

/-- `toPascalCase` from `src/transformers/index.js`: the `Id`-suffix special
case recurses on `slice(0, -2)`, the general case removes `-`/`_` separators
upper-casing the following character and capitalizes the first character. -/
def toPascalCase (l : List Char) : List Char :=
  toPascalCaseGo (l.length + 1) l

/-- Recursion core of `toCamelCase` (same fuel discipline as
`toPascalCaseGo`). -/
def toCamelCaseGo : Nat → List Char → List Char
  | 0, _ => []
  | fuel + 1, l =>
    if lowerEndsId l then
      toCamelCaseGo fuel (l.take (l.length - 2)) ++ ['I', 'd']
    else
      match toPascalCase l with
      | [] => []
      | c :: t => c.toLower :: t

/-- `toCamelCase` from `src/transformers/index.js`. -/
def toCamelCase (l : List Char) : List Char :=
  toCamelCaseGo (l.length + 1) l

/-- `toSnakeCase` from `src/transformers/index.js`:
`replace(/([A-Z])/g, '_$1').toLowerCase().replace(/^_/, '').replace(/[-\s]/g, '_')`. -/
def toSnakeCase (l : List Char) : List Char :=
  let s1 := (l.map fun c => if c.isUpper then ['_', c] else [c]).flatten
  let s2 := s1.map Char.toLower
  let s3 := match s2 with
    | '_' :: t => t
    | other => other
  s3.map fun c => if c = '-' || jsIsSpace c then '_' else c

/-- `toKebabCase` from `src/transformers/index.js`. -/
def toKebabCase (l : List Char) : List Char :=
  let s1 := (l.map fun c => if c.isUpper then ['-', c] else [c]).flatten
  let s2 := s1.map Char.toLower
  let s3 := match s2 with
    | '-' :: t => t
    | other => other
  s3.map fun c => if c = '_' || jsIsSpace c then '-' else c

/-- The per-key `switch (caseStyle.toLowerCase())` of `transformCase`. -/
def transformKey (caseStyle : String) (k : String) : String :=
  let st := jsStrLower caseStyle
  if st = "pascal" then String.mk (toPascalCase k.toList)
  else if st = "camel" then String.mk (toCamelCase k.toList)
  else if st = "snake" then String.mk (toSnakeCase k.toList)
  else if st = "kebab" then String.mk (toKebabCase k.toList)
  else k

/-- `typeof v === 'object'` (true for objects, arrays and `null`). -/
def typeofObject : JsValue → Bool
  | JsValue.null => true
  | JsValue.arr _ => true
  | JsValue.obj _ => true
  | _ => false

/-- `transformCase` from `src/transformers/index.js` (recursion core, with
fuel): rewrite every key of an object, recursing into object values and into
object elements of non-empty arrays whose first element is object-typed.
Modelled domain: array elements that are `null` or nested arrays are passed
through unchanged (on those the JavaScript source would throw from
`Object.entries(null)` or recase array indices; the repository never feeds it
such values). -/
def transformCaseGo : Nat → JsValue → String → JsValue
  | 0, v, _ => v
  | fuel + 1, v, caseStyle =>
    match v with
    | JsValue.obj entries =>
      JsValue.obj (entries.foldl (fun acc kv =>
        let tk := transformKey caseStyle kv.1
        let tv : JsValue :=
          match kv.2 with
          | JsValue.obj o => transformCaseGo fuel (JsValue.obj o) caseStyle
          | JsValue.arr items =>
            if (match items with
                | i0 :: _ => typeofObject i0
                | [] => false) then
              JsValue.arr (items.map fun it =>
                match it with
                | JsValue.obj o2 => transformCaseGo fuel (JsValue.obj o2) caseStyle
                | other => other)
            else JsValue.arr items
          | other => other
        jsAssign acc tk tv) [])
    | other => other

mutual

/-- Structural size of a JavaScript value (fuel bound for the recursions that
walk a value). -/
def jsSize : JsValue → Nat
  | JsValue.arr items => jsSizeListV items + 1
  | JsValue.obj entries => jsSizeListE entries + 1
  | _ => 1

/-- Structural size of a list of JavaScript values. -/
def jsSizeListV : List JsValue → Nat
  | [] => 0
  | v :: t => jsSize v + jsSizeListV t

/-- Structural size of the entry list of a JavaScript object. -/
def jsSizeListE : List (String × JsValue) → Nat
  | [] => 0
  | kv :: t => jsSize kv.2 + jsSizeListE t

end

/-- `transformCase` with the fuel instantiated at `jsSize v + 1`, which always
exceeds the nesting depth of `v`, so the fuel-0 branch is never reached. -/
def transformCase (v : JsValue) (caseStyle : String) : JsValue :=
  transformCaseGo (jsSize v + 1) v caseStyle

/-- The composite of the first two steps of `toSnakeCase`
(`replace(/([A-Z])/g, '_$1').toLowerCase()`): an underscore is inserted
before every upper-case letter and everything is lower-cased. -/
def expLower : List Char → List Char
  | [] => []
  | c :: t => (if c.isUpper then ['_', c.toLower] else [c.toLower]) ++ expLower t

/-- One leading underscore is dropped (`replace(/^_/, '')`). -/
def stripU : List Char → List Char
  | [] => []
  | a :: t => if a = '_' then t else a :: t

/-- The ASCII letters and digits: the identifier alphabet without
separators. -/
def alnumChars : List Char :=
  (r"ABCDEFGHIJKLMNOPQRSTUVWXYZabcdefghijklmnopqrstuvwxyz0123456789").toList

/-- Lower-case ASCII letters, digits and underscore: the snake_case
alphabet. -/
def snakeChars : List Char :=
  (r"abcdefghijklmnopqrstuvwxyz0123456789_").toList

/-! ### Randomness model

`@faker-js/faker` is an external collaborator: after `faker.seed(s)` every
`faker.*` call advances one shared deterministic pseudo-random stream, a pure
function of the seed.  We model that stream as a list of natural draws
(`fakerStream`); each faker call consumes exactly one draw (except the
documented two-draw `FullName` case, which makes two calls).  `Math.random()`
is a distinct stream that no seed controls: it is modelled as a separate list
of rationals in `[0, 1)` (`mathStream`).  A generation run is a function of
both streams; a fixed seed fixes only the faker stream. -/

/-- The two streams of randomness available to the generator. -/
structure GenSt where
  fakerStream : List Nat
  mathStream : List Rat
deriving Repr

/-- One draw from the seeded faker stream. -/
def fakerDraw : List Nat → Nat × List Nat
  | [] => (0, [])
  | n :: t => (n, t)

/-- One `Math.random()` draw from the unseeded stream. -/
def mathDraw : List Rat → Rat × List Rat
  | [] => (0, [])
  | r :: t => (r, t)

/-- Model of a faker call returning a string (names, words, addresses, …):
one draw, and an opaque string derived from the draw and the API tag. -/
def fakerText (tag : String) (s : List Nat) : String × List Nat :=
  let (n, t) := fakerDraw s
  (tag ++ "#" ++ toString n, t)

/-- Model of `faker.number.int(\x7bmin, max\x7d)`: one draw, mapped into the
requested range. -/
def fakerInt (lo hi : Int) (s : List Nat) : Int × List Nat :=
  let (n, t) := fakerDraw s
  (lo + Int.ofNat (n % ((hi - lo + 1).toNat.max 1)), t)

/-- Model of `faker.number.float(\x7bmin, max, precision\x7d)`. -/
def fakerFloat (lo hi : Rat) (s : List Nat) : Rat × List Nat :=
  let (n, t) := fakerDraw s
  (lo + (Int.ofNat (n % (((hi - lo) * 100).floor.toNat + 1)) : Rat) / 100, t)

/-- Model of `faker.datatype.boolean()`. -/
def fakerBool (s : List Nat) : Bool × List Nat :=
  let (n, t) := fakerDraw s
  (n % 2 = 0, t)

/-- Model of the numeric-string faker calls `faker.commerce.price(…)` and
`faker.finance.amount(…)`: one draw, rendered as a decimal string (the
bound arguments of the source call are kept for documentation only; no claim
constrains the numeric range). -/
def fakerNumStr (s : List Nat) : String × List Nat :=
  let (n, t) := fakerDraw s
  (toString n, t)

/-- Model of the `faker.date.*` calls: one draw, producing an ISO-8601
timestamp string (`Date#toISOString` form). -/
def fakerDateISO (tag : String) (s : List Nat) : String × List Nat :=
  let (n, t) := fakerDraw s
  ("200" ++ toString (n % 10) ++ "-01-02T03:04:05.000Z", t)

/-- Model of `faker.helpers.arrayElement`: one draw selecting an element.
On the empty list the JavaScript library throws; the default is outside the
modelled domain and theorems guard against empty lists where it matters. -/
def fakerArrayElement (l : List α) (d : α) (s : List Nat) : α × List Nat :=
  let (n, t) := fakerDraw s
  (l.getD (n % l.length) d, t)

/-! ### JavaScript numeric parsing -/

/-- Decimal value of a digit list. -/
def digitsVal (l : List Char) : Nat :=
  l.foldl (fun a c => a * 10 + (c.toNat - 48)) 0

/-- JavaScript `parseInt` (base 10): optional sign, then a non-empty digit
prefix; `NaN` (here `none`) when no digit is found.  (Hexadecimal prefixes and
exponents do not occur in this repository's inputs.) -/
def jsParseInt (s : String) : Option Int :=
  let l := s.toList.dropWhile jsIsSpace
  let sg : Int := match l with
    | '-' :: _ => -1
    | _ => 1
  let l2 := match l with
    | '-' :: t => t
    | '+' :: t => t
    | _ => l
  let ip := l2.takeWhile Char.isDigit
  if ip.isEmpty then none else some (sg * Int.ofNat (digitsVal ip))

/-- JavaScript `parseFloat`: optional sign, digits, optional fraction; `NaN`
when no digit is found. -/
def jsParseFloat (s : String) : JsValue :=
  let l := s.toList.dropWhile jsIsSpace
  let sg : Rat := match l with
    | '-' :: _ => -1
    | _ => 1
  let l2 := match l with
    | '-' :: t => t
    | '+' :: t => t
    | _ => l
  let ip := l2.takeWhile Char.isDigit
  let rest := l2.dropWhile Char.isDigit
  let fp := match rest with
    | '.' :: t => t.takeWhile Char.isDigit
    | _ => []
  if ip.isEmpty && fp.isEmpty then JsValue.nan
  else JsValue.num (sg * ((digitsVal ip : Rat) + (digitsVal fp : Rat) / (10 : Rat) ^ fp.length))

/-! ### Parsed C# entity model (`src/csharp-parser/index.js` output shape) -/

/-- One C# attribute above a property: `[Name(p1, p2)]`. -/
structure CsAttr where
  name : String
  parameters : List String
deriving DecidableEq, Repr

/-- One parsed enum member.  The stored value is the explicit
`parseInt`-parsed integer (`none` models the `NaN` kept by the source when the
explicit value does not parse) or the positional index. -/
structure EnumMember where
  name : String
  value : Option Int
deriving DecidableEq, Repr

/-- One parsed C# property, with the fields `parseEntityFile` records.
`maxLength = none` covers both an absent `[MaxLength]` attribute and a
`NaN` parse result (the two are indistinguishable to every consumer: both are
falsy). -/
structure CsProp where
  name : String
  type : String
  attributes : List CsAttr
  defaultValue : Option String
  isRequired : Bool
  maxLength : Option Int
  isNavigation : Bool
deriving DecidableEq, Repr

/-- One derived relationship record. -/
structure CsRel where
  propertyName : String
  targetEntity : String
  type : String
deriving DecidableEq, Repr

/-- One parsed entity. -/
structure CsEntity where
  entityName : String
  properties : List CsProp
  relationships : List CsRel
  enums : List (String × List EnumMember)
deriving DecidableEq, Repr

/-! ### C# mock-data generator (`generateValueForProperty`, `generateMockData`,
`generateAllEntities` from the csharp-generator module) -/

/-- `formatDate`: `date.toISOString().slice(0, 19).replace('T', ' ')`
(the `replace` with a string pattern rewrites only the first occurrence). -/
def replaceFirstT : List Char → List Char
  | [] => []
  | c :: t => if c = 'T' then ' ' :: t else c :: replaceFirstT t

/-- `formatDate` from the csharp-generator module (the date is modelled by its
ISO string). -/
def formatDate (d : String) : String :=
  String.mk (replaceFirstT (d.toList.take 19))

/-- Model of `faker.lorem.words(k)`: one draw; the string is long enough for
the `substring` truncation in `generateString` to act as in the source. -/
def fakerWords (k : Nat) (s : List Nat) : String × List Nat :=
  let (n, t) := fakerDraw s
  (String.mk (List.replicate (k * 8) 'w') ++ toString n, t)

/-- `generateString` from the csharp-generator module:
`length = maxLength ? Math.min(maxLength, 20) : 10` (so a zero or `NaN` bound
falls back to 10), then `faker.lorem.words(Math.max(1, Math.floor(length/5)))`
truncated by `substring(0, length)`. -/
def generateString (maxLength : Option Int) (s : List Nat) : String × List Nat :=
  let len : Int := match maxLength with
    | some v => if v = 0 then 10 else min v 20
    | none => 10
  let (w, s1) := fakerWords (max 1 (Int.fdiv len 5)).toNat s
  (String.mk (w.toList.take len.toNat), s1)

/-- State-threading wrapper: a faker call that yields a string value. -/
def strCall (f : List Nat → String × List Nat) (st : GenSt) : JsValue × GenSt :=
  let (v, f1) := f st.fakerStream
  (JsValue.str v, ⟨f1, st.mathStream⟩)

/-- State-threading wrapper: `faker.number.int(\x7bmin, max\x7d)`. -/
def intCall (lo hi : Int) (st : GenSt) : JsValue × GenSt :=
  let (v, f1) := fakerInt lo hi st.fakerStream
  (JsValue.int v, ⟨f1, st.mathStream⟩)

/-- State-threading wrapper: `parseFloat(<numeric faker string>)` as used for
prices, costs, amounts, discounts and taxes. -/
def floatParseCall (st : GenSt) : JsValue × GenSt :=
  let (v, f1) := fakerNumStr st.fakerStream
  (jsParseFloat v, ⟨f1, st.mathStream⟩)

/-- State-threading wrapper: `faker.datatype.boolean()`. -/
def boolCall (st : GenSt) : JsValue × GenSt :=
  let (v, f1) := fakerBool st.fakerStream
  (JsValue.bool v, ⟨f1, st.mathStream⟩)

/-- State-threading wrapper: `formatDate(faker.date.*())`. -/
def dateCall (tag : String) (st : GenSt) : JsValue × GenSt :=
  let (v, f1) := fakerDateISO tag st.fakerStream
  (JsValue.str (formatDate v), ⟨f1, st.mathStream⟩)

/-- State-threading wrapper: the `FullName` branch (two faker calls). -/
def fullNameCall (st : GenSt) : JsValue × GenSt :=
  let (a, f1) := fakerText (r"person.firstName") st.fakerStream
  let (b, f2) := fakerText (r"person.lastName") f1
  (JsValue.str (a ++ " " ++ b), ⟨f2, st.mathStream⟩)

/-- State-threading wrapper: `faker.internet.email().toLowerCase()`. -/
def emailCall (st : GenSt) : JsValue × GenSt :=
  let (v, f1) := fakerText (r"internet.email") st.fakerStream
  (JsValue.str (jsStrLower v), ⟨f1, st.mathStream⟩)

/-- State-threading wrapper: `generateString(maxLength)`. -/
def genStringCall (maxLength : Option Int) (st : GenSt) : JsValue × GenSt :=
  let (v, f1) := generateString maxLength st.fakerStream
  (JsValue.str v, ⟨f1, st.mathStream⟩)

/-- The enum branch: `faker.helpers.arrayElement(enumValues).value`. -/
def enumCall (enumValues : List EnumMember) (st : GenSt) : JsValue × GenSt :=
  let (m, f1) := fakerArrayElement enumValues ⟨"", some 0⟩ st.fakerStream
  (match m.value with
   | some i => JsValue.int i
   | none => JsValue.nan,
   ⟨f1, st.mathStream⟩)

/-- The part of `generateValueForProperty` that follows the nullable-chance
check: the enum lookup on the base type, the `Id` null placeholder, the
name-pattern chain, then the type-based `switch`, in exact source order. -/
def generateValueBody (prop : CsProp) (entityInfo : CsEntity) (baseType : String)
    (st : GenSt) : JsValue × GenSt :=
  let name := prop.name
  match jsGet entityInfo.enums baseType with
    | some enumValues => enumCall enumValues st
    | none =>
    if name = "Id" then (JsValue.null, st)
    else if name = "FirstName" then strCall (fakerText (r"person.firstName")) st
    else if name = "LastName" then strCall (fakerText (r"person.lastName")) st
    else if name = "FullName" then fullNameCall st
    else if jsIncludes name (r"Name") && !(jsIncludes name (r"First"))
        && !(jsIncludes name (r"Last")) then
      if entityInfo.entityName = "Product" then
        strCall (fakerText (r"commerce.productName")) st
      else if entityInfo.entityName = "Company" || entityInfo.entityName = "Supplier" then
        strCall (fakerText (r"company.name")) st
      else strCall (fakerText (r"lorem.word")) st
    else if jsIncludes name (r"Email") then emailCall st
    else if jsIncludes name (r"Phone") then strCall (fakerText (r"phone.number")) st
    else if jsIncludes name (r"Address") && !(jsIncludes name (r"Email")) then
      strCall (fakerText (r"location.streetAddress")) st
    else if name = "City" then strCall (fakerText (r"location.city")) st
    else if name = "Country" then strCall (fakerText (r"location.country")) st
    else if name = "PostalCode" || name = "ZipCode" then
      strCall (fakerText (r"location.zipCode")) st
    else if jsIncludes name (r"Description") then
      strCall (fakerText (r"lorem.paragraph")) st
    else if name = "Notes" || name = "Comments" then
      strCall (fakerText (r"lorem.sentences")) st
    else if jsIncludes name (r"Price") then floatParseCall st
    else if jsIncludes name (r"Cost") then floatParseCall st
    else if jsIncludes name (r"Amount") then floatParseCall st
    else if jsIncludes name (r"Discount") then floatParseCall st
    else if jsIncludes name (r"Tax") then floatParseCall st
    else if jsIncludes name (r"Quantity") || jsIncludes name (r"Stock") then
      intCall 1 100 st
    else if jsIncludes name (r"Min") then intCall 1 10 st
    else if jsIncludes name (r"Max") then intCall 50 200 st
    else if jsStartsWith name (r"Is") || jsStartsWith name (r"Has")
        || jsStartsWith name (r"Requires") then boolCall st
    else if baseType = "string" then genStringCall prop.maxLength st
    else if baseType = "int" || baseType = "Int32" then intCall 1 1000 st
    else if baseType = "long" || baseType = "Int64" then intCall 1 1000000 st
    else if baseType = "decimal" || baseType = "double" || baseType = "float" then
      floatParseCall st
    else if baseType = "bool" || baseType = "Boolean" then boolCall st
    else if baseType = "DateTime" then
      if name = "CreatedAt" || jsIncludes name (r"Create") then dateCall (r"date.past") st
      else if name = "UpdatedAt" || jsIncludes name (r"Update") then
        dateCall (r"date.recent") st
      else if jsIncludes name (r"Birth") then dateCall (r"date.birthdate") st
      else if jsIncludes name (r"Expiry") then dateCall (r"date.future") st
      else dateCall (r"date.recent") st
    else if baseType = "Guid" then strCall (fakerText (r"string.uuid")) st
    else genStringCall (some 10) st

/-- `generateValueForProperty(prop, entityInfo)` from the csharp-generator
module.  The branch structure and order reproduce the source exactly: the
nullable-and-not-required `Math.random() > 0.8` null chance first (consuming
one unseeded draw only in that case), then `generateValueBody`: the enum
lookup, the `Id` null placeholder, the name-pattern chain and the type-based
`switch`. -/
def generateValueForProperty (prop : CsProp) (entityInfo : CsEntity) (st : GenSt) :
    JsValue × GenSt :=
  let isNullable := jsEndsWith prop.type (r"?")
  let baseType := if isNullable then jsDropLast prop.type 1 else prop.type
  if isNullable && !prop.isRequired then
    let (rv, m2) := mathDraw st.mathStream
    let st1 : GenSt := ⟨st.fakerStream, m2⟩
    if rv > mkRat 4 5 then (JsValue.null, st1)
    else generateValueBody prop entityInfo baseType st1
  else generateValueBody prop entityInfo baseType st

/-- The body of the record loop of `generateMockData`: one generated record.
Navigation properties are skipped; a property whose name ends in `Id` with a
present entry in `dependencies` (JavaScript truthiness: any array, even empty)
samples a parent record's `Id` or resolves to null on an empty parent list;
every other property goes through `generateValueForProperty`. -/
def genRecordStep (entityInfo : CsEntity) (dependencies : List (String × List JsRecord))
    (acc : JsRecord × GenSt) (prop : CsProp) : JsRecord × GenSt :=
  let entity := acc.1
  let st := acc.2
  if prop.isNavigation then acc
  else if jsEndsWith prop.name (r"Id")
      && (jsGet dependencies (jsDropLast prop.name 2)).isSome then
    let depEntities := (jsGet dependencies (jsDropLast prop.name 2)).getD []
    if depEntities.length > 0 then
      let (chosen, f1) := fakerArrayElement depEntities [] st.fakerStream
      (jsAssign entity prop.name ((jsGet chosen (r"Id")).getD JsValue.undef),
       ⟨f1, st.mathStream⟩)
    else (jsAssign entity prop.name JsValue.null, st)
  else
    let (v, st2) := generateValueForProperty prop entityInfo st
    (jsAssign entity prop.name v, st2)

/-- One generated record: the fold of `genRecordStep` over the declaration
order of the entity's properties. -/
def generateOneRecord (entityInfo : CsEntity) (dependencies : List (String × List JsRecord))
    (st : GenSt) : JsRecord × GenSt :=
  entityInfo.properties.foldl (genRecordStep entityInfo dependencies) ([], st)

/-- The record loop of `generateMockData`, `count` iterations. -/
def generateMockDataGo (entityInfo : CsEntity) (dependencies : List (String × List JsRecord)) :
    Nat → List JsRecord → GenSt → List JsRecord × GenSt
  | 0, acc, st => (acc, st)
  | n + 1, acc, st =>
    let (r0, st1) := generateOneRecord entityInfo dependencies st
    generateMockDataGo entityInfo dependencies n (acc ++ [r0]) st1

/-- `generateMockData(entityInfo, count, dependencies)` from the
csharp-generator module. -/
def generateMockData (entityInfo : CsEntity) (count : Nat)
    (dependencies : List (String × List JsRecord)) (st : GenSt) : List JsRecord × GenSt :=
  generateMockDataGo entityInfo dependencies count [] st

/-- The generation loop of `generateAllEntities`: entities are generated in
`sortedEntities` order, each seeing the accumulated `generatedEntities` map as
its dependencies, with one faker/math stream threading through the whole batch
(file writing and logging omitted).  For names produced by `topologicalSort`
of the graph built from `entities` the lookup always succeeds; the default is
unreachable there. -/
def generateEntitiesCore (entities : List (String × CsEntity)) (sortedEntities : List String)
    (count : Nat) (st : GenSt) : List (String × List JsRecord) × GenSt :=
  sortedEntities.foldl (fun acc entityName =>
    let generated := acc.1
    let st := acc.2
    let entityInfo := (jsGet entities entityName).getD ⟨entityName, [], [], []⟩
    let (mockData, st1) := generateMockData entityInfo count generated st
    (jsAssign generated entityName mockData, st1)) ([], st)

/-! ### JSON-schema driven generator (`src/generators/index.js`) -/

/-- One JSON-schema field definition as consumed by `generateFieldValue`.
Absent JavaScript properties are `none`/`[]`. -/
inductive SchemaDefn where
  | mk (faker : Option String) (type : Option String)
      (minimum : Option Int) (maximum : Option Int)
      (minItems : Option Int) (maxItems : Option Int)
      (items : Option SchemaDefn)
      (properties : List (String × SchemaDefn))
deriving Repr

def SchemaDefn.faker : SchemaDefn → Option String
  | .mk f _ _ _ _ _ _ _ => f

def SchemaDefn.type : SchemaDefn → Option String
  | .mk _ t _ _ _ _ _ _ => t

def SchemaDefn.minimum : SchemaDefn → Option Int
  | .mk _ _ mi _ _ _ _ _ => mi

def SchemaDefn.maximum : SchemaDefn → Option Int
  | .mk _ _ _ ma _ _ _ _ => ma

def SchemaDefn.minItems : SchemaDefn → Option Int
  | .mk _ _ _ _ mi _ _ _ => mi

def SchemaDefn.maxItems : SchemaDefn → Option Int
  | .mk _ _ _ _ _ ma _ _ => ma

def SchemaDefn.items : SchemaDefn → Option SchemaDefn
  | .mk _ _ _ _ _ _ it _ => it

def SchemaDefn.properties : SchemaDefn → List (String × SchemaDefn)
  | .mk _ _ _ _ _ _ _ ps => ps

mutual

/-- Structural size of a schema definition (fuel bound). -/
def schemaSize : SchemaDefn → Nat
  | .mk _ _ _ _ _ _ items props =>
    1 + (match items with
         | some d => schemaSize d
         | none => 0) + schemaSizeList props

/-- Structural size of a schema property list. -/
def schemaSizeList : List (String × SchemaDefn) → Nat
  | [] => 0
  | p :: t => schemaSize p.2 + schemaSizeList t

end

/-- Model of `evaluateFakerMethod`: the dynamic faker dispatch is external
library behavior; both the successful call and the logged fallback to
`faker.lorem.word()` produce a string from one draw of the shared stream. -/
def evaluateFakerMethod (method : String) (s : List Nat) : String × List Nat :=
  fakerText ("dyn." ++ method) s

/-- `generateStringValue(fieldName, definition)` from `src/generators/index.js`:
the name-pattern chain over `fieldName.toLowerCase()`.  Every branch returns a
string. -/
def generateStringValue (fieldName : String) (definition : SchemaDefn) (s : List Nat) :
    String × List Nat :=
  let lfn := jsStrLower fieldName
  if jsIncludes lfn (r"name") then
    if jsIncludes lfn (r"first") then fakerText (r"person.firstName") s
    else if jsIncludes lfn (r"last") then fakerText (r"person.lastName") s
    else if jsIncludes lfn (r"full") then fakerText (r"person.fullName") s
    else if jsIncludes lfn (r"product") then fakerText (r"commerce.productName") s
    else if jsIncludes lfn (r"company") then fakerText (r"company.name") s
    else fakerText (r"commerce.productName") s
  else if jsIncludes lfn (r"email") then fakerText (r"internet.email") s
  else if jsIncludes lfn (r"phone") then fakerText (r"phone.number") s
  else if jsIncludes lfn (r"address") then fakerText (r"location.streetAddress") s
  else if jsIncludes lfn (r"city") then fakerText (r"location.city") s
  else if jsIncludes lfn (r"country") then fakerText (r"location.country") s
  else if jsIncludes lfn (r"zip") || jsIncludes lfn (r"postal") then
    fakerText (r"location.zipCode") s
  else if jsIncludes lfn (r"description") then
    fakerText (r"commerce.productDescription") s
  else if jsIncludes lfn (r"image") || jsIncludes lfn (r"photo")
      || jsIncludes lfn (r"avatar") then fakerText (r"image.url") s
  else if jsIncludes lfn (r"color") then fakerText (r"color.human") s
  else if jsIncludes lfn (r"date") then fakerDateISO (r"date.past") s
  else if jsIncludes lfn (r"uuid") then fakerText (r"string.uuid") s
  else if jsIncludes lfn (r"password") then fakerText (r"internet.password") s
  else if jsIncludes lfn (r"url") then fakerText (r"internet.url") s
  else if jsIncludes lfn (r"sku") then
    let (v, s1) := fakerText (r"string.alphanumeric8") s
    (jsStrUpper v, s1)
  else if jsIncludes lfn (r"barcode") then fakerText (r"string.numeric12") s
  else if jsIncludes lfn (r"manufacturer") then fakerText (r"company.name") s
  else if jsIncludes lfn (r"batch") then
    let (v, s1) := fakerText (r"string.alphanumeric6") s
    ("BATCH-" ++ jsStrUpper v, s1)
  else fakerText (r"lorem.word") s

/-- `generateNumberValue(fieldName, definition)` from `src/generators/index.js`.
Every branch returns a number (possibly `NaN` through `parseFloat`, never
null/undefined). -/
def generateNumberValue (fieldName : String) (definition : SchemaDefn) (s : List Nat) :
    JsValue × List Nat :=
  let lfn := jsStrLower fieldName
  let lo := definition.minimum.getD 0
  let hi := definition.maximum.getD 1000
  if jsIncludes lfn (r"price") then
    let (v, s1) := fakerNumStr s
    (jsParseFloat v, s1)
  else if jsIncludes lfn (r"quantity") || jsIncludes lfn (r"stock") then
    let (v, s1) := fakerInt lo hi s
    (JsValue.int v, s1)
  else if jsIncludes lfn (r"id") then
    let (v, s1) := fakerInt 1 1000 s
    (JsValue.int v, s1)
  else if jsIncludes lfn (r"age") then
    let (v, s1) := fakerInt 18 90 s
    (JsValue.int v, s1)
  else if jsIncludes lfn (r"rating") then
    let (v, s1) := fakerFloat 0 5 s
    (JsValue.num v, s1)
  else if jsIncludes lfn (r"percentage") then
    let (v, s1) := fakerFloat 0 100 s
    (JsValue.num v, s1)
  else if definition.type = some "integer" then
    let (v, s1) := fakerInt lo hi s
    (JsValue.int v, s1)
  else
    let (v, s1) := fakerFloat (lo : Rat) (hi : Rat) s
    (JsValue.num v, s1)

/-- `generateFieldValue(fieldName, definition, index)` from
`src/generators/index.js` (recursion core, with fuel; `schemaSize + 1` always
suffices).  Unrecognized or absent `type` falls through to the `default`
branch and returns null; the `required` list of the schema is never consulted
on this path. -/
def generateFieldValueGo : Nat → String → SchemaDefn → Int → List Nat → JsValue × List Nat
  | 0, _, _, _, s => (JsValue.undef, s)
  | fuel + 1, fieldName, definition, index, s =>
    match definition.faker with
    | some m =>
      let (v, s1) := evaluateFakerMethod m s
      (JsValue.str v, s1)
    | none =>
      if definition.type = some "string" then
        let (v, s1) := generateStringValue fieldName definition s
        (JsValue.str v, s1)
      else if definition.type = some "number" || definition.type = some "integer" then
        generateNumberValue fieldName definition s
      else if definition.type = some "boolean" then
        let (v, s1) := fakerBool s
        (JsValue.bool v, s1)
      else if definition.type = some "array" then
        match definition.items with
        | none => (JsValue.arr [], s)
        | some itemDefn =>
          let minItems := definition.minItems.getD 0
          let maxItems := match definition.maxItems with
            | some v => if v = 0 then 5 else v
            | none => 5
          let (count, s1) := fakerInt minItems maxItems s
          let go := fun (i : Nat) (acc : List JsValue × List Nat) =>
            let (items, s2) := acc
            let (v, s3) := generateFieldValueGo fuel (fieldName ++ "Item") itemDefn
              (index * 100 + Int.ofNat i) s2
            (items ++ [v], s3)
          let (items, s2) := (List.range count.toNat).foldl (fun acc i => go i acc) ([], s1)
          (JsValue.arr items, s2)
      else if definition.type = some "object" then
        let (entries, s2) := definition.properties.foldl (fun acc p =>
          let (res, s1) := acc
          let (v, s3) := generateFieldValueGo fuel p.1 p.2 index s1
          (jsAssign res p.1 v, s3)) ([], s)
        (JsValue.obj entries, s2)
      else (JsValue.null, s)

/-- `generateFieldValue` with fuel `schemaSize definition + 1`; the fuel-0
branch is never reached on that budget. -/
def generateFieldValue (fieldName : String) (definition : SchemaDefn) (index : Int)
    (s : List Nat) : JsValue × List Nat :=
  generateFieldValueGo (schemaSize definition + 1) fieldName definition index s

/-- `generateMockItem(schema, index)` from `src/generators/index.js`: one value
per schema property, in declaration order. -/
def generateMockItem (schema : SchemaDefn) (index : Int) (s : List Nat) :
    JsRecord × List Nat :=
  schema.properties.foldl (fun acc p =>
    let (item, s1) := acc
    let (v, s2) := generateFieldValue p.1 p.2 index s1
    (jsAssign item p.1 v, s2)) ([], s)

/-! ### C# entity parser (`src/csharp-parser/index.js`)

The four regular expressions of the source (`CLASS_REGEX`, `PROPERTY_REGEX`,
`ATTRIBUTE_REGEX`, `ENUM_REGEX`) are implemented as deterministic scanners;
each pattern's character classes are disjoint from its following literals, so
the greedy JavaScript semantics never needs further backtracking than coded
here. -/

/-- Text braces used in the C# property pattern. -/
def braceOpen : String := "\x7b"

/-- Closing text brace. -/
def braceClose : String := "\x7d"

/-- Consume an exact literal. -/
def dropLitS (lit : String) (l : List Char) : Option (List Char) :=
  if lit.toList.isPrefixOf l then some (l.drop lit.toList.length) else none

/-- Consume `\s+`. -/
def ws1 (l : List Char) : Option (List Char) :=
  let w := l.takeWhile jsIsSpace
  if w.isEmpty then none else some (l.drop w.length)

/-- Consume `\s*`. -/
def wsStar (l : List Char) : List Char := l.dropWhile jsIsSpace

/-- Consume a non-empty maximal run of characters satisfying `p` (a greedy
`[…]+`). -/
def take1 (p : Char → Bool) (l : List Char) : Option (List Char × List Char) :=
  let w := l.takeWhile p
  if w.isEmpty then none else some (w, l.drop w.length)

/-- Try `step` at every position, left to right (anchored-free first match, as
`String.match` without `g`). -/
def scanFirst (step : List Char → Option α) : List Char → Option α
  | [] => step []
  | l@(_ :: t) =>
    match step l with
    | some r => some r
    | none => scanFirst step t

/-- `matchAll` (recursion core, with fuel): collect successive matches, each
scan resuming after the previous match (or one character further on an empty
match, as JavaScript does). -/
def matchAllJsGo (step : List Char → Option (α × List Char)) :
    Nat → List Char → List α
  | 0, _ => []
  | fuel + 1, l =>
    match l with
    | [] =>
      match step [] with
      | some (m, _) => [m]
      | none => []
    | _ :: t =>
      match step l with
      | some (m, rest) =>
        m :: matchAllJsGo step fuel (if rest.length < l.length then rest else t)
      | none => matchAllJsGo step fuel t

/-- `matchAll` with fuel `l.length + 1`: every step consumes at least one
character, so the fuel-0 branch is never reached. -/
def matchAllJs (step : List Char → Option (α × List Char)) (l : List Char) : List α :=
  matchAllJsGo step (l.length + 1) l

/-- `CLASS_REGEX = /public\s+class\s+(\w+)/` at one position. -/
def matchClassAt (l : List Char) : Option String := do
  let l1 ← dropLitS (r"public") l
  let l2 ← ws1 l1
  let l3 ← dropLitS (r"class") l2
  let l4 ← ws1 l3
  let (w, _) ← take1 jsIsWordChar l4
  pure (String.mk w)

/-- `ATTRIBUTE_REGEX = /\[\s*(\w+)(?:\(([^)]*)\))?\s*\]/` at one position,
returning the attribute record built at the use site (name, and parameters
split on `,` and trimmed when the second capture is non-empty). -/
def matchAttrAt (l : List Char) : Option (CsAttr × List Char) := do
  let l1 ← dropLitS (r"[") l
  let l2 := wsStar l1
  let (nm, l3) ← take1 jsIsWordChar l2
  let (params, l4) :=
    match l3 with
    | '(' :: rest =>
      let inner := rest.takeWhile (fun c => c ≠ ')')
      (match rest.drop inner.length with
       | ')' :: rest2 => (some inner, rest2)
       | _ => (none, l3))
    | _ => (none, l3)
  let l5 := wsStar l4
  let l6 ← dropLitS (r"]") l5
  let ps := match params with
    | some p =>
      if p.isEmpty then []
      else ((jsSplitCharS ',' (String.mk p))).map jsTrim
    | none => []
  pure (⟨String.mk nm, ps⟩, l6)

/-- Raw capture groups of one `PROPERTY_REGEX` match. -/
structure PropMatch where
  propType : String
  propName : String
  defaultV : Option String
deriving DecidableEq, Repr

/-- `PROPERTY_REGEX =
/public\s+([\w<>?]+)\s+(\w+)\s*\x7b\s*get;\s*set;\s*\x7d(\s*=\s*([^;]+))?/`
at one position. -/
def matchPropAt (l : List Char) : Option (PropMatch × List Char) := do
  let l1 ← dropLitS (r"public") l
  let l2 ← ws1 l1
  let (ty, l3) ← take1 (fun c => jsIsWordChar c || c = '<' || c = '>' || c = '?') l2
  let l4 ← ws1 l3
  let (nm, l5) ← take1 jsIsWordChar l4
  let l6 := wsStar l5
  let l7 ← dropLitS braceOpen l6
  let l8 := wsStar l7
  let l9 ← dropLitS (r"get;") l8
  let l10 := wsStar l9
  let l11 ← dropLitS (r"set;") l10
  let l12 := wsStar l11
  let l13 ← dropLitS braceClose l12
  let (dflt, l14) :=
    match wsStar l13 with
    | '=' :: lb =>
      let lc := wsStar lb
      let dv := lc.takeWhile (fun c => c ≠ ';')
      if dv.isEmpty then ((none : Option String), l13)
      else (some (String.mk dv), lc.drop dv.length)
    | _ => (none, l13)
  pure (⟨String.mk ty, String.mk nm, dflt⟩, l14)

/-- `ENUM_REGEX = /public\s+enum\s+(\w+)\s*\x7b([^}]*)\x7d/` at one position:
yields the enum name and the raw member body. -/
def matchEnumAt (l : List Char) : Option ((String × String) × List Char) := do
  let l1 ← dropLitS (r"public") l
  let l2 ← ws1 l1
  let l3 ← dropLitS (r"enum") l2
  let l4 ← ws1 l3
  let (nm, l5) ← take1 jsIsWordChar l4
  let l6 := wsStar l5
  let l7 ← dropLitS braceOpen l6
  let body := l7.takeWhile (fun c => c ≠ '\x7d')
  let l8 ← dropLitS braceClose (l7.drop body.length)
  pure ((String.mk nm, String.mk body), l8)

/-- The enum member mapping of `parseEntityFile`: split the body on `,`, trim,
drop empties, then each entry is `name[=value]` — the explicit value goes
through `parseInt` (`none` models `NaN`), an unassigned member takes its
0-based position among the non-empty entries. -/
def parseEnumBody (body : String) : List EnumMember :=
  let items := ((jsSplitCharS ',' body).map jsTrim).filter (fun v => v ≠ "")
  items.enum.map fun p =>
    let parts := jsSplitCharS '=' p.2
    match parts with
    | [] => ⟨"", some (Int.ofNat p.1)⟩
    | nm :: rest =>
      ⟨jsTrim nm,
       if rest.length > 0 then jsParseInt (jsTrim (rest.headD ""))
       else some (Int.ofNat p.1)⟩

/-- `extractMaxLength(attributes)`: first parameter of a `MaxLength` attribute
through `parseInt`; `none` covers both absence and `NaN`. -/
def extractMaxLength (attributes : List CsAttr) : Option Int :=
  match attributes.find? (fun a => a.name = "MaxLength") with
  | some a =>
    match a.parameters with
    | p :: _ => jsParseInt p
    | [] => none
  | none => none

/-- `isNavigationProperty(propType, content)` from `src/csharp-parser/index.js`. -/
def isNavigationProperty (propType : String) (content : String) : Bool :=
  jsIncludes propType (r"ICollection<") ||
  jsIncludes propType (r"List<") ||
  jsIncludes propType (r"HashSet<") ||
  (!(jsStartsWith propType (r"string")) &&
   !(jsStartsWith propType (r"int")) &&
   !(jsStartsWith propType (r"decimal")) &&
   !(jsStartsWith propType (r"double")) &&
   !(jsStartsWith propType (r"float")) &&
   !(jsStartsWith propType (r"bool")) &&
   !(jsStartsWith propType (r"DateTime")) &&
   !(jsStartsWith propType (r"Guid")) &&
   !(jsIncludes propType (r"?")) &&
   jsIncludes content ("public class " ++ propType))

/-- First `/<([^>]+)>/` capture of a type token (used on collection types; on
types without a closed non-empty angle group the JavaScript source would throw
on `match(...)[1]` — that input is outside the modelled domain and the result
defaults to the empty string). -/
def extractAngle (s : String) : String :=
  let step : List Char → Option String := fun l =>
    match l with
    | '<' :: rest =>
      let inner := rest.takeWhile (fun c => c ≠ '>')
      if inner.isEmpty then none
      else
        match rest.drop inner.length with
        | '>' :: _ => some (String.mk inner)
        | _ => none
    | _ => none
  (scanFirst step s.toList).getD ""

/-- `extractRelationships(properties, content)` from
`src/csharp-parser/index.js`. -/
def extractRelationships (properties : List CsProp) (content : String) : List CsRel :=
  properties.foldl (fun rels prop =>
    if prop.isNavigation then
      let isColl := jsIncludes prop.type (r"ICollection<") ||
        jsIncludes prop.type (r"List<") || jsIncludes prop.type (r"HashSet<")
      let target := if isColl then extractAngle prop.type else prop.type
      let kind := if isColl then "oneToMany" else "oneToOne"
      rels ++ [⟨prop.name, target, kind⟩]
    else if jsEndsWith prop.name (r"Id") && prop.type = "int" then
      rels ++ [⟨prop.name, jsDropLast prop.name 2, "manyToOne"⟩]
    else rels) []

/-- The attribute/property line scan of `parseEntityFile`: one line of the
file.  A line starting with `[` accumulates attribute matches (and keeps the
pending set when no attribute parses); a line containing `get;` and `set;`
emits one property per `PROPERTY_REGEX` match, the first taking the pending
attributes and each match resetting them; any other non-empty, non-comment
line clears the pending attributes. -/
def parseLineStep (content : String) (st : List CsAttr × List CsProp) (line : String) :
    List CsAttr × List CsProp :=
  let currentAttributes := st.1
  let properties := st.2
  let tline := jsTrim line
  if jsStartsWith tline (r"[") then
    let attrs := matchAllJs matchAttrAt tline.toList
    if attrs.length > 0 then (currentAttributes ++ attrs, properties)
    else (currentAttributes, properties)
  else if jsIncludes tline (r"get;") && jsIncludes tline (r"set;") then
    let propMatches := matchAllJs matchPropAt tline.toList
    if propMatches.length > 0 then
      propMatches.foldl (fun acc pm =>
        (([] : List CsAttr),
         acc.2 ++ [{ name := pm.propName
                     type := pm.propType
                     attributes := acc.1
                     defaultValue := pm.defaultV
                     isRequired := acc.1.any (fun a => a.name = "Required")
                     maxLength := extractMaxLength acc.1
                     isNavigation := isNavigationProperty pm.propType content }]))
        (currentAttributes, properties)
    else (currentAttributes, properties)
  else if !(jsStartsWith tline (r"//")) && !(jsStartsWith tline (r"/*"))
      && tline ≠ "" then
    ([], properties)
  else (currentAttributes, properties)

/-- `parseEntityFile` from `src/csharp-parser/index.js`, on the file's text
(the `fs.readFileSync` is the caller's concern) and base name: fails exactly
when `CLASS_REGEX` finds no class declaration, otherwise collects properties
(line scan), enums (`ENUM_REGEX` over the whole content) and relationships. -/
def parseEntityFile (content : String) (fileName : String) : Except String CsEntity :=
  match scanFirst matchClassAt content.toList with
  | none => Except.error ("Could not find class definition in " ++ fileName)
  | some className =>
    let lines := jsSplitCharS '\n' content
    let scanned := lines.foldl (parseLineStep content) ([], [])
    let properties := scanned.2
    let enumMatches := matchAllJs matchEnumAt content.toList
    let enums := enumMatches.foldl
      (fun acc e => jsAssign acc e.1 (parseEnumBody e.2)) []
    Except.ok ⟨className, properties, extractRelationships properties content, enums⟩

/-- `path.basename(filePath, '.cs')`. -/
def csBasename (s : String) : String := jsDropLast s 3

/-- `parseEntityDirectory` from `src/csharp-parser/index.js`: keep the `.cs`
files, parse each independently, store successes under their entity name, log
and skip failures.  The directory is modelled as the (name, content) list that
`fs.readdirSync` + `fs.readFileSync` would produce. -/
def parseEntityDirectory (files : List (String × String)) : List (String × CsEntity) :=
  (files.filter (fun f => jsEndsWith f.1 (r".cs"))).foldl (fun entities f =>
    match parseEntityFile f.2 (csBasename f.1) with
    | Except.ok e => jsAssign entities e.entityName e
    | Except.error _ => entities) []

/-- `buildDependencyGraph(entities)`: for each entity, the targets of its
`manyToOne` relationships, in entity insertion order.  (The source also
stores the entity record alongside; `topologicalSort` never reads it, so the
graph is modelled as name ↦ dependency names.) -/
def buildDependencyGraph (entities : List (String × CsEntity)) : List (String × List String) :=
  entities.map fun p =>
    (p.1, ((p.2.relationships.filter (fun rl => rl.type = "manyToOne")).map
      fun rl => rl.targetEntity))

/-! ### Topological sort (`src/csharp-parser/index.js` lines 245–323)

The mutable `visited`/`temp` dictionaries hold boolean values and are only
read through truthiness, so they are modelled by their sets of truthy keys;
`cycles` (a `Set`) likewise.  Both recursive visits are embedded with fuel and
`Option`: `none` means the fuel ran out, and `graph.length + 1` units are
proved sufficient below, which is the termination argument for the source's
recursion. -/

/-- State of the first (cycle-detection) pass: truthy `visited` and `temp`
keys, the `cycles` set, and the pass's (unused) post-order `result`. -/
structure TopoSt where
  visited : List String
  temp : List String
  cycles : List String
  result1 : List String
deriving DecidableEq, Repr

/-- Add a key to a truthy set (`m[k] = true`). -/
def setTrue (l : List String) (n : String) : List String :=
  if n ∈ l then l else n :: l

/-- Remove a key from a truthy set (`m[k] = false`). -/
def setFalse (l : List String) (n : String) : List String :=
  l.filter (fun x => x ≠ n)

/-- Dependencies of a node (`graph[node].dependencies`, `[]` when the node is
not in the graph — the source guards the iteration with `graph[node] &&`). -/
def graphDeps (g : List (String × List String)) (n : String) : List String :=
  (jsGet g n).getD []

/-- `visit(node, path)` of the first pass of `topologicalSort`. -/
def visit1 (g : List (String × List String)) :
    Nat → TopoSt → String → List String → Option TopoSt
  | 0, _, _, _ => none
  | fuel + 1, st, node, path =>
    if node ∈ st.visited then some st
    else if node ∈ st.temp then
      some (if node ∈ path then { st with cycles := setTrue st.cycles node } else st)
    else
      match (graphDeps g node).foldlM (fun s dep =>
          if (jsGet g dep).isSome && !(s.cycles.contains dep) then
            visit1 g fuel s dep (path ++ [node])
          else some s) { st with temp := setTrue st.temp node } with
      | none => none
      | some st2 =>
        some { st2 with temp := setFalse st2.temp node
                        visited := setTrue st2.visited node
                        result1 := st2.result1 ++ [node] }

/-- `simpleVisit(n)` of the second pass: state is (truthy `visited`,
`result2`). -/
def visit2 (g : List (String × List String)) (cycles : List String) :
    Nat → List String × List String → String → Option (List String × List String)
  | 0, _, _ => none
  | fuel + 1, st, n =>
    if n ∈ st.1 then some st
    else
      match (graphDeps g n).foldlM (fun s dep =>
          if (jsGet g dep).isSome && !(cycles.contains dep) then
            visit2 g cycles fuel s dep
          else some s) (setTrue st.1 n, st.2) with
      | none => none
      | some st2 => some (st2.1, st2.2 ++ [n])

/-- `topologicalSort(graph)` from `src/csharp-parser/index.js`: the
cycle-marking first pass over every key, the reset of `visited`, the second
pass collecting `result2` in post-order while skipping edges into cycle
members, and the final `result2.reverse()`. -/
def topologicalSort (graph : List (String × List String)) : Option (List String) :=
  let keys := graph.map (fun p => p.1)
  let fuel := keys.length + 1
  match keys.foldlM (fun st node =>
      if node ∈ st.visited then some st else visit1 graph fuel st node [])
      (⟨[], [], [], []⟩ : TopoSt) with
  | none => none
  | some st1 =>
    match keys.foldlM (fun s node =>
        if node ∈ s.1 then some s else visit2 graph st1.cycles fuel s node)
        (([], []) : List String × List String) with
    | none => none
    | some st2 => some st2.2.reverse

/-! ### Concrete inputs used by the claim instances -/

/-- A minimal `Category.cs` in the shape the repository parses. -/
def categoryCs : String :=
  "public class Category\n\x7b\n    public int Id \x7b get; set; \x7d\n    [Required]\n    [MaxLength(100)]\n    public string Name \x7b get; set; \x7d\n\x7d\n"

/-- A minimal `Product.cs` with a `CategoryId` foreign key. -/
def productCs : String :=
  "public class Product\n\x7b\n    public int Id \x7b get; set; \x7d\n    [Required]\n    public string Name \x7b get; set; \x7d\n    public int CategoryId \x7b get; set; \x7d\n\x7d\n"

/-- A file with no class declaration: `parseEntityFile` throws on it. -/
def brokenCs : String := "// TODO: add the entity\nconst x = 1;\n"

/-- A `User.cs` declaring the `Role` enum of the specification's example. -/
def userRoleCs : String :=
  "public class User\n\x7b\n    public Role Role \x7b get; set; \x7d\n\x7d\npublic enum Role \x7bAdmin, Manager=1, Pharmacist=2\x7d\n"

/-- The members the `Role` enum of `userRoleCs` parses to. -/
def roleMembers : List EnumMember :=
  [⟨"Admin", some 0⟩, ⟨"Manager", some 1⟩, ⟨"Pharmacist", some 2⟩]

/-- The single `Role`-typed property of the `User` entity of `userRoleCs`. -/
def roleProp : CsProp := ⟨"Role", "Role", [], none, false, none, false⟩

/-- The entity `parseEntityFile` produces for `userRoleCs`. -/
def userRoleEntity : CsEntity := ⟨"User", [roleProp], [], [("Role", roleMembers)]⟩

/-- A nullable, not-required text property (hits the `Math.random()` branch). -/
def nicknameProp : CsProp := ⟨"Nickname", "string?", [], none, false, none, false⟩

/-- A one-entity parse batch with only the nullable `Nickname` field. -/
def userNicknameEntity : CsEntity := ⟨"User", [nicknameProp], [], []⟩


/-! ## Claim C1 — dependency order of `topologicalSort`

On the two-entity graph in which `Product` has a many-to-one dependency on
`Category` and `Category` has none, the source returns
`["Product", "Category"]`: the second pass appends each node after its
dependencies (so `result2 = [Category, Product]`, already in dependency
order), and the final `result2.reverse()` then puts every dependent *before*
its dependencies.  This contradicts the claim's `[Category, Product]` and the
claimed guarantee that a non-cycle dependency precedes its dependents; it
also contradicts the source's own intent (the generated import script promises
"the correct order", and `generateAllEntities` samples foreign keys from
already-generated parents, which requires parents first). -/

/-- C1: `topologicalSort` on the Category/Product graph yields
`["Product", "Category"]` — the dependent first — and not the
`["Category", "Product"]` stated by the claim. -/
theorem topologicalSort_category_product_order :
    topologicalSort [("Category", []), ("Product", ["Category"])]
        = some ["Product", "Category"]
      ∧ topologicalSort [("Category", []), ("Product", ["Category"])]
        ≠ some ["Category", "Product"] :=
  ⟨rfl, by decide⟩

/-! ## Claim C2 — reproducibility under a fixed seed

`faker.seed(seed)` fixes only the faker stream.  The nullable-and-not-required
branch of `generateValueForProperty` calls the global `Math.random()`, which no
seed controls.  Two runs of the generation loop of `generateAllEntities` with
the identical faker stream (same seed, same entities, same count) but
different `Math.random()` outcomes produce different records, contradicting
the claim and the repository's own documentation ("Set seed for reproducible
results", "Use a specific seed for reproducible data"). -/

/-- C2: with the same seed-determined faker stream `[7]`, entity set and
count 1, one run (whose `Math.random()` draw is 0.9) writes `Nickname: null`
while another (draw 0.1) writes a string: the pipeline's output is not a
function of the seed. -/
theorem generation_not_reproducible_under_fixed_seed :
    (generateEntitiesCore [("User", userNicknameEntity)] ["User"] 1
        ⟨[7], [mkRat 9 10]⟩).1
      = [("User", [[("Nickname", JsValue.null)]])]
    ∧ (generateEntitiesCore [("User", userNicknameEntity)] ["User"] 1
        ⟨[7], [mkRat 1 10]⟩).1
      = [("User", [[("Nickname", JsValue.str (String.mk (List.replicate 10 'w')))]])]
    ∧ JsValue.null ≠ JsValue.str (String.mk (List.replicate 10 'w')) :=
  ⟨rfl, rfl, by simp⟩

/-! ## Claim C3 — required fields and null/undefined

The synthesizers consult `isRequired` only in the nullable-chance branch.  Two
code paths still yield nullish values for a required field: the cli path
returns `null` for any field named exactly `Id` (even with `[Required]`), and
the generators path returns `null` for any definition whose `type` is missing
or unrecognized.  The claim is therefore corrected: outside those two source
escapes — a field named `Id`, and an unknown schema type — a required field
never receives null or undefined. -/

/-- `v` is `null` or `undefined`. -/
def isNullish : JsValue → Bool
  | JsValue.null => true
  | JsValue.undef => true
  | _ => false

theorem isNullish_strCall (f : List Nat → String × List Nat) (st : GenSt) :
    isNullish (strCall f st).1 = false := by
  rcases hf : f st.fakerStream with ⟨v, f1⟩
  simp [strCall, hf, isNullish]

theorem isNullish_intCall (lo hi : Int) (st : GenSt) :
    isNullish (intCall lo hi st).1 = false := by
  rcases hf : fakerInt lo hi st.fakerStream with ⟨v, f1⟩
  simp [intCall, hf, isNullish]

theorem isNullish_jsParseFloat (s : String) : isNullish (jsParseFloat s) = false := by
  unfold jsParseFloat
  dsimp only
  split <;> simp [isNullish]

theorem isNullish_floatParseCall (st : GenSt) :
    isNullish (floatParseCall st).1 = false := by
  rcases hf : fakerNumStr st.fakerStream with ⟨v, f1⟩
  simp [floatParseCall, hf, isNullish_jsParseFloat]

theorem isNullish_boolCall (st : GenSt) : isNullish (boolCall st).1 = false := by
  rcases hf : fakerBool st.fakerStream with ⟨v, f1⟩
  simp [boolCall, hf, isNullish]

theorem isNullish_dateCall (tag : String) (st : GenSt) :
    isNullish (dateCall tag st).1 = false := by
  rcases hf : fakerDateISO tag st.fakerStream with ⟨v, f1⟩
  simp [dateCall, hf, isNullish]

theorem isNullish_enumCall (l : List EnumMember) (st : GenSt) :
    isNullish (enumCall l st).1 = false := by
  rcases hf : fakerArrayElement l ⟨"", some 0⟩ st.fakerStream with ⟨m, f1⟩
  cases hv : m.value <;> simp [enumCall, hf, hv, isNullish]

theorem isNullish_fullNameCall (st : GenSt) : isNullish (fullNameCall st).1 = false := by
  rcases h1 : fakerText (r"person.firstName") st.fakerStream with ⟨a, f1⟩
  rcases h2 : fakerText (r"person.lastName") f1 with ⟨b, f2⟩
  simp [fullNameCall, h1, h2, isNullish]

theorem isNullish_emailCall (st : GenSt) : isNullish (emailCall st).1 = false := by
  rcases h1 : fakerText (r"internet.email") st.fakerStream with ⟨v, f1⟩
  simp [emailCall, h1, isNullish]

theorem isNullish_genStringCall (ml : Option Int) (st : GenSt) :
    isNullish (genStringCall ml st).1 = false := by
  rcases h1 : generateString ml st.fakerStream with ⟨v, f1⟩
  simp [genStringCall, h1, isNullish]

theorem isNullish_generateValueBody (prop : CsProp) (entityInfo : CsEntity)
    (baseType : String) (st : GenSt) (hname : prop.name ≠ "Id") :
    isNullish (generateValueBody prop entityInfo baseType st).1 = false := by
  unfold generateValueBody
  split
  · exact isNullish_enumCall ..
  · simp [apply_ite Prod.fst, apply_ite isNullish, hname,
      isNullish_strCall, isNullish_intCall, isNullish_floatParseCall,
      isNullish_boolCall, isNullish_dateCall, isNullish_fullNameCall,
      isNullish_emailCall, isNullish_genStringCall]

theorem isNullish_generateNumberValue (fieldName : String) (defn : SchemaDefn)
    (s : List Nat) : isNullish (generateNumberValue fieldName defn s).1 = false := by
  unfold generateNumberValue
  dsimp only
  simp only [apply_ite Prod.fst, apply_ite isNullish]
  simp only [isNullish_jsParseFloat]
  simp [isNullish]

/-- C3 counterexample: a property named exactly `Id` marked `[Required]` is
still generated as `null` (the `name === 'Id'` placeholder branch does not
consult `isRequired`). -/
theorem required_Id_generated_null :
    (⟨"Id", "int", [⟨"Required", []⟩], none, true, none, false⟩ : CsProp).isRequired = true
    ∧ (generateValueForProperty
        ⟨"Id", "int", [⟨"Required", []⟩], none, true, none, false⟩
        ⟨"User", [], [], []⟩ ⟨[5], []⟩).1 = JsValue.null :=
  ⟨rfl, rfl⟩

/-- C3 (amended): the cli synthesizer never yields null or undefined for a
required field unless the field is named exactly `Id`; the JSON-schema
synthesizer (which never consults `required`) never yields null or undefined
when a `faker` override is present or the declared type is one of the
recognized kinds (string, number, integer, boolean, array, object). -/
theorem required_field_never_nullish :
    (∀ (prop : CsProp) (entityInfo : CsEntity) (st : GenSt),
        prop.isRequired = true → prop.name ≠ "Id" →
        isNullish (generateValueForProperty prop entityInfo st).1 = false)
    ∧ (∀ (fieldName : String) (defn : SchemaDefn) (index : Int) (s : List Nat),
        (defn.faker ≠ none ∨ defn.type ∈ [some "string", some "number",
          some "integer", some "boolean", some "array", some "object"]) →
        isNullish (generateFieldValue fieldName defn index s).1 = false) := by
  constructor
  · intro prop entityInfo st hreq hname
    unfold generateValueForProperty
    simp only [hreq, Bool.not_true, Bool.and_false, Bool.false_eq_true, if_false]
    exact isNullish_generateValueBody prop entityInfo _ st hname
  · intro fieldName defn index s h
    unfold generateFieldValue
    simp only [generateFieldValueGo]
    cases hf : defn.faker with
    | some m =>
      rcases hm : evaluateFakerMethod m s with ⟨v, s1⟩
      simp [hf, hm, isNullish]
    | none =>
      rcases h with hfaker | hty
      · exact absurd hf hfaker
      · simp only [hf]
        simp only [List.mem_cons, List.not_mem_nil, or_false] at hty
        rcases hty with h | h | h | h | h | h
        all_goals simp only [h]
        · rcases hs : generateStringValue fieldName defn s with ⟨v, s1⟩
          simp [hs, isNullish]
        · simp [isNullish_generateNumberValue]
        · simp [isNullish_generateNumberValue]
        · rcases hb : fakerBool s with ⟨v, s1⟩
          simp [hb, isNullish]
        · simp only [reduceIte]
          cases hi : defn.items with
          | none => simp [isNullish]
          | some itemDefn =>
            dsimp only
            rcases hc : fakerInt (defn.minItems.getD 0)
              (match defn.maxItems with
               | some v => if v = 0 then 5 else v
               | none => 5) s with ⟨count, s1⟩
            simp [hc, isNullish]
        · simp [isNullish]

/-- C3 witness: the required `Name {string, [Required], MaxLength 100}` field
and a numeric JSON-schema field both receive non-nullish values. -/
theorem required_field_never_nullish_witness :
    isNullish (generateValueForProperty
        ⟨"Name", "string", [⟨"Required", []⟩], none, true, some 100, false⟩
        ⟨"User", [], [], []⟩ ⟨[3], []⟩).1 = false
    ∧ isNullish (generateFieldValue "price"
        (SchemaDefn.mk none (some "number") none none none none none []) 0 [2]).1 = false :=
  ⟨required_field_never_nullish.1 _ _ _ rfl (by decide),
   required_field_never_nullish.2 _ _ _ _ (Or.inr (by decide))⟩

/-! ## Claims C4 and C10 — shape of generated records

Supporting lemmas about JavaScript object assignment and lookup, then: a
foreign-key field's generated value is null or a sampled parent `Id` (C4), and
navigation properties never receive a key (C10). -/

theorem jsGet_assign_self (l : List (String × α)) (k : String) (v : α) :
    jsGet (jsAssign l k v) k = some v := by
  unfold jsAssign jsGet
  split
  · next hany =>
    rw [List.find?_map]
    induction l with
    | nil => simp at hany
    | cons p t ih =>
      by_cases hp : p.1 = k
      · rw [List.find?_cons_of_pos]
        · simp [hp]
        · simp [Function.comp, hp]
      · simp only [List.any_cons, Bool.or_eq_true] at hany
        rcases hany with hc | hc
        · exact absurd (of_decide_eq_true hc) hp
        · rw [List.find?_cons_of_neg]
          · exact ih hc
          · simp [Function.comp, hp]
  · next hany =>
    simp only [List.find?_append]
    have h1 : (l.find? fun p => decide (p.1 = k)) = none := by
      rw [List.find?_eq_none]
      intro x hx hc
      exact hany (List.any_eq_true.mpr ⟨x, hx, hc⟩)
    simp [h1]

theorem jsGet_assign_ne (l : List (String × α)) (k key : String) (v : α)
    (h : key ≠ k) : jsGet (jsAssign l k v) key = jsGet l key := by
  unfold jsAssign jsGet
  split
  · rw [List.find?_map]
    have hpred : ((fun p => decide (p.1 = key)) ∘ fun p =>
        if p.1 = k then (k, v) else p) = fun (p : String × α) => decide (p.1 = key) := by
      funext p
      by_cases hp : p.1 = k
      · simp [hp, Ne.symm h]
      · simp [hp]
    rw [hpred]
    cases hfind : l.find? fun p => decide (p.1 = key) with
    | none => simp
    | some x =>
      have hx : x.1 = key := by
        have hsome := List.find?_some hfind
        exact of_decide_eq_true hsome
      have hxk : ¬(x.1 = k) := by rw [hx]; exact h
      simp [hxk]
  · simp only [List.find?_append]
    have h2 : ([(k, v)].find? fun p => decide (p.1 = key)) = none := by
      simp only [List.find?_eq_none, List.mem_singleton]
      intro x hx
      subst hx
      simp [Ne.symm h]
    cases hl : (l.find? fun p => decide (p.1 = key)) <;> simp [h2, hl]

theorem jsGet_assign_isSome (l : List (String × α)) (k key : String) (v : α)
    (h : (jsGet (jsAssign l k v) key).isSome = true) :
    key = k ∨ (jsGet l key).isSome = true := by
  by_cases hk : key = k
  · exact Or.inl hk
  · rw [jsGet_assign_ne l k key v hk] at h
    exact Or.inr h

/-- The produced value of a sampled or empty foreign-key branch: null, or the
`Id` of a parent record, with null forced on an empty parent list. -/
def fkGood (parentRecs : List JsRecord) (v : JsValue) : Prop :=
  (v = JsValue.null ∨ ∃ rp ∈ parentRecs, v = (jsGet rp (r"Id")).getD JsValue.undef)
  ∧ (parentRecs = [] → v = JsValue.null)

theorem genRecordStep_nav (entityInfo : CsEntity) (deps : List (String × List JsRecord))
    (acc : JsRecord × GenSt) (prop : CsProp) (hnav : prop.isNavigation = true) :
    genRecordStep entityInfo deps acc prop = acc := by
  simp [genRecordStep, hnav]

theorem genRecordStep_assign (entityInfo : CsEntity) (deps : List (String × List JsRecord))
    (acc : JsRecord × GenSt) (prop : CsProp) (hnav : prop.isNavigation = false) :
    ∃ v, (genRecordStep entityInfo deps acc prop).1 = jsAssign acc.1 prop.name v := by
  unfold genRecordStep
  simp only [hnav, Bool.false_eq_true, if_false]
  split
  · split
    · rcases hf : fakerArrayElement ((jsGet deps (jsDropLast prop.name 2)).getD [])
        [] acc.2.fakerStream with ⟨chosen, f1⟩
      exact ⟨(jsGet chosen (r"Id")).getD JsValue.undef, by simp [hf]⟩
    · exact ⟨JsValue.null, rfl⟩
  · rcases hg : generateValueForProperty prop entityInfo acc.2 with ⟨v, st2⟩
    exact ⟨v, by simp [hg]⟩

theorem genRecordStep_fk (entityInfo : CsEntity) (deps : List (String × List JsRecord))
    (acc : JsRecord × GenSt) (prop : CsProp) (parentRecs : List JsRecord)
    (hnav : prop.isNavigation = false) (hid : jsEndsWith prop.name (r"Id") = true)
    (hdep : jsGet deps (jsDropLast prop.name 2) = some parentRecs) :
    ∃ v, (genRecordStep entityInfo deps acc prop).1 = jsAssign acc.1 prop.name v
      ∧ fkGood parentRecs v := by
  unfold genRecordStep
  simp only [hnav, Bool.false_eq_true, if_false, hdep, hid, Option.isSome_some,
    Bool.and_self, if_true, Option.getD_some]
  split
  · next hlen =>
    have hpos : 0 < parentRecs.length := hlen
    have hfst : (fakerArrayElement parentRecs [] acc.2.fakerStream).1
        = parentRecs.getD ((fakerDraw acc.2.fakerStream).1 % parentRecs.length) [] := rfl
    rcases hf : fakerArrayElement parentRecs [] acc.2.fakerStream with ⟨chosen, f1⟩
    rw [hf] at hfst
    have hch : chosen = parentRecs.getD
        ((fakerDraw acc.2.fakerStream).1 % parentRecs.length) [] := hfst
    refine ⟨(jsGet chosen (r"Id")).getD JsValue.undef, by simp [hf], ?_, ?_⟩
    · right
      refine ⟨chosen, ?_, rfl⟩
      have hlt : (fakerDraw acc.2.fakerStream).1 % parentRecs.length < parentRecs.length :=
        Nat.mod_lt _ hpos
      rw [hch, List.getD_eq_getElem _ _ hlt]
      exact List.getElem_mem ..
    · intro hempty
      subst hempty
      simp at hpos
  · next hlen =>
    have hempty : parentRecs = [] := by
      cases hp : parentRecs with
      | nil => rfl
      | cons a t => exact absurd (by simp [hp]) hlen
    exact ⟨JsValue.null, rfl, Or.inl rfl, fun _ => rfl⟩

theorem foldl_genRecordStep_preserve (entityInfo : CsEntity)
    (deps : List (String × List JsRecord)) (props : List CsProp)
    (acc : JsRecord × GenSt) (key : String)
    (hne : ∀ p ∈ props, p.name ≠ key) :
    jsGet (props.foldl (genRecordStep entityInfo deps) acc).1 key = jsGet acc.1 key := by
  induction props generalizing acc with
  | nil => rfl
  | cons p rest ih =>
    rw [List.foldl_cons, ih _ (fun q hq => hne q (List.mem_cons_of_mem p hq))]
    cases hnav : p.isNavigation with
    | true => rw [genRecordStep_nav _ _ _ _ hnav]
    | false =>
      obtain ⟨v, hv⟩ := genRecordStep_assign entityInfo deps acc p hnav
      rw [hv, jsGet_assign_ne]
      exact fun hc => hne p (List.mem_cons_self ..) hc.symm

theorem foldl_genRecordStep_fk (entityInfo : CsEntity)
    (deps : List (String × List JsRecord)) (props : List CsProp)
    (acc : JsRecord × GenSt) (prop : CsProp) (parentRecs : List JsRecord)
    (hnodup : (props.map (fun p => p.name)).Nodup)
    (hmem : prop ∈ props)
    (hnav : prop.isNavigation = false) (hid : jsEndsWith prop.name (r"Id") = true)
    (hdep : jsGet deps (jsDropLast prop.name 2) = some parentRecs) :
    ∃ v, jsGet (props.foldl (genRecordStep entityInfo deps) acc).1 prop.name = some v
      ∧ fkGood parentRecs v := by
  induction props generalizing acc with
  | nil => exact absurd hmem (List.not_mem_nil _)
  | cons p rest ih =>
    rcases List.mem_cons.mp hmem with rfl | hmem'
    · obtain ⟨v, hv, hgood⟩ := genRecordStep_fk entityInfo deps acc prop parentRecs
        hnav hid hdep
      refine ⟨v, ?_, hgood⟩
      rw [List.foldl_cons, foldl_genRecordStep_preserve]
      · rw [hv, jsGet_assign_self]
      · intro q hq hc
        simp only [List.map_cons, List.nodup_cons] at hnodup
        exact hnodup.1 (hc ▸ List.mem_map_of_mem (fun p => p.name) hq)
    · rw [List.foldl_cons]
      exact ih _
        (by simp only [List.map_cons, List.nodup_cons] at hnodup; exact hnodup.2) hmem'

theorem foldl_genRecordStep_keys (entityInfo : CsEntity)
    (deps : List (String × List JsRecord)) (props : List CsProp)
    (acc : JsRecord × GenSt) (key : String)
    (h : (jsGet (props.foldl (genRecordStep entityInfo deps) acc).1 key).isSome = true) :
    (jsGet acc.1 key).isSome = true
      ∨ ∃ p ∈ props, p.isNavigation = false ∧ p.name = key := by
  induction props generalizing acc with
  | nil => exact Or.inl h
  | cons p rest ih =>
    rw [List.foldl_cons] at h
    rcases ih _ h with hacc | ⟨q, hq, hqn, hqk⟩
    · cases hnav : p.isNavigation with
      | true =>
        rw [genRecordStep_nav _ _ _ _ hnav] at hacc
        exact Or.inl hacc
      | false =>
        obtain ⟨v, hv⟩ := genRecordStep_assign entityInfo deps acc p hnav
        rw [hv] at hacc
        rcases jsGet_assign_isSome _ _ _ _ hacc with hk | hsome
        · exact Or.inr ⟨p, List.mem_cons_self .., hnav, hk.symm⟩
        · exact Or.inl hsome
    · exact Or.inr ⟨q, List.mem_cons_of_mem p hq, hqn, hqk⟩

theorem generateMockDataGo_records (entityInfo : CsEntity)
    (deps : List (String × List JsRecord)) :
    ∀ (n : Nat) (acc : List JsRecord) (st : GenSt) (rcd : JsRecord),
      rcd ∈ (generateMockDataGo entityInfo deps n acc st).1 →
      rcd ∈ acc ∨ ∃ st', rcd = (generateOneRecord entityInfo deps st').1 := by
  intro n
  induction n with
  | zero => exact fun acc st rcd h => Or.inl h
  | succ m ih =>
    intro acc st rcd h
    unfold generateMockDataGo at h
    rcases hr : generateOneRecord entityInfo deps st with ⟨r0, st1⟩
    rw [hr] at h
    rcases ih _ _ _ h with hmem | hgen
    · rcases List.mem_append.mp hmem with hacc | hnew
      · exact Or.inl hacc
      · exact Or.inr ⟨st, by rw [List.mem_singleton.mp hnew, hr]⟩
    · exact Or.inr hgen

/-- C4: in every record generated by `generateMockData`, a non-navigation
property whose name ends in `Id` and whose stripped name has an entry in the
already-generated dependencies map receives a value that is null or the `Id`
field of one of that parent's records, and is null whenever the parent list is
empty.  (Distinct property names is the well-formedness JavaScript objects
give a parsed class.) -/
theorem foreign_key_value_sound
    (entityInfo : CsEntity) (count : Nat) (deps : List (String × List JsRecord))
    (st : GenSt) (rcd : JsRecord) (prop : CsProp) (parentRecs : List JsRecord)
    (hnodup : (entityInfo.properties.map (fun p => p.name)).Nodup)
    (hrec : rcd ∈ (generateMockData entityInfo count deps st).1)
    (hmem : prop ∈ entityInfo.properties)
    (hnav : prop.isNavigation = false)
    (hid : jsEndsWith prop.name (r"Id") = true)
    (hdep : jsGet deps (jsDropLast prop.name 2) = some parentRecs) :
    ∃ v, jsGet rcd prop.name = some v
      ∧ (v = JsValue.null ∨ ∃ rp ∈ parentRecs, v = (jsGet rp (r"Id")).getD JsValue.undef)
      ∧ (parentRecs = [] → v = JsValue.null) := by
  rcases generateMockDataGo_records entityInfo deps count [] st rcd hrec with hin | ⟨st', hst'⟩
  · exact absurd hin (List.not_mem_nil _)
  · subst hst'
    obtain ⟨v, hv, hgood⟩ := foldl_genRecordStep_fk entityInfo deps entityInfo.properties
      ([], st') prop parentRecs hnodup hmem hnav hid hdep
    exact ⟨v, hv, hgood.1, hgood.2⟩

/-- C4 witness: for the `Product.CategoryId` foreign key with one generated
`Category` record of `Id = 42`, the generated value is that parent `Id`. -/
theorem foreign_key_value_sound_witness :
    ∃ v, jsGet [("CategoryId", JsValue.int 42)] ("CategoryId") = some v
      ∧ (v = JsValue.null ∨ ∃ rp ∈ [[("Id", JsValue.int 42)]],
          v = (jsGet rp (r"Id")).getD JsValue.undef)
      ∧ ([[("Id", JsValue.int 42)]] = ([] : List JsRecord) → v = JsValue.null) :=
  foreign_key_value_sound
    ⟨"Product", [⟨"CategoryId", "int", [], none, false, none, false⟩], [], []⟩
    1 [("Category", [[("Id", JsValue.int 42)]])] ⟨[0], []⟩
    [("CategoryId", JsValue.int 42)]
    ⟨"CategoryId", "int", [], none, false, none, false⟩
    [[("Id", JsValue.int 42)]]
    (by decide) (List.mem_singleton.mpr rfl) (List.mem_singleton.mpr rfl)
    rfl (by decide) rfl

/-- C10: a navigation property contributes no key to any generated record:
`generateMockData` skips it before any value is produced. -/
theorem navigation_properties_not_in_records
    (entityInfo : CsEntity) (count : Nat) (deps : List (String × List JsRecord))
    (st : GenSt) (rcd : JsRecord) (prop : CsProp)
    (hnodup : (entityInfo.properties.map (fun p => p.name)).Nodup)
    (hrec : rcd ∈ (generateMockData entityInfo count deps st).1)
    (hmem : prop ∈ entityInfo.properties)
    (hnav : prop.isNavigation = true) :
    jsGet rcd prop.name = none := by
  rcases generateMockDataGo_records entityInfo deps count [] st rcd hrec with hin | ⟨st', hst'⟩
  · exact absurd hin (List.not_mem_nil _)
  · subst hst'
    cases hlook : jsGet (generateOneRecord entityInfo deps st').1 prop.name with
    | none => rfl
    | some v =>
      have hlook2 : jsGet (entityInfo.properties.foldl (genRecordStep entityInfo deps)
          ([], st')).1 prop.name = some v := hlook
      have hsome : (jsGet (entityInfo.properties.foldl (genRecordStep entityInfo deps)
          ([], st')).1 prop.name).isSome = true := by rw [hlook2]; rfl
      rcases foldl_genRecordStep_keys entityInfo deps entityInfo.properties ([], st')
          prop.name hsome with hbase | ⟨q, hq, hqnav, hqname⟩
      · simp [jsGet] at hbase
      · have hqp : q = prop := List.inj_on_of_nodup_map hnodup hq hmem hqname
        rw [hqp] at hqnav
        rw [hqnav] at hnav
        exact absurd hnav (by simp)

/-- C10 witness: an entity whose only property is a navigation collection
generates the empty record, with no key for the navigation property. -/
theorem navigation_properties_not_in_records_witness :
    jsGet ([] : JsRecord) ("Items") = none :=
  navigation_properties_not_in_records
    ⟨"Order", [⟨"Items", "List<OrderItem>", [], none, false, none, true⟩], [], []⟩
    1 [] ⟨[], []⟩ [] ⟨"Items", "List<OrderItem>", [], none, false, none, true⟩
    (by decide) (List.mem_singleton.mpr rfl) (List.mem_singleton.mpr rfl) rfl

/-! ## Claim C5 — `topologicalSort` terminates and covers every entity once

The development below proves that both recursive passes succeed on the fuel
budget `graph.length + 1` the embedding gives them (this is the termination
argument for the source recursion), and that the second pass's output lists
exactly the graph's keys, each once. -/

theorem mem_setTrue (l : List String) (n x : String) :
    x ∈ setTrue l n ↔ x = n ∨ x ∈ l := by
  unfold setTrue
  split
  · next h =>
    constructor
    · exact Or.inr
    · rintro (rfl | hx)
      · exact h
      · exact hx
  · simp

theorem jsGet_isSome_mem_keys (g : List (String × α)) (k : String)
    (h : (jsGet g k).isSome = true) : k ∈ g.map Prod.fst := by
  unfold jsGet at h
  cases hf : g.find? fun p => p.1 = k with
  | none => rw [hf] at h; simp at h
  | some x =>
    have hx : x.1 = k := by
      have := List.find?_some hf
      exact of_decide_eq_true this
    have hmem : x ∈ g := List.mem_of_find?_eq_some hf
    exact hx ▸ List.mem_map_of_mem Prod.fst hmem

/-- Number of graph keys not yet in the truthy set `v` (decrease measure of
both recursive visits). -/
def unvisitedCount (g : List (String × List String)) (v : List String) : Nat :=
  ((g.map Prod.fst).filter (fun k => !(v.contains k))).length

theorem unvisitedCount_le (g : List (String × List String)) (v : List String) :
    unvisitedCount g v ≤ g.length := by
  calc ((g.map Prod.fst).filter (fun k => !(v.contains k))).length
      ≤ (g.map Prod.fst).length := List.length_filter_le ..
    _ = g.length := List.length_map ..

theorem length_filter_mono (l : List α) (p q : α → Bool)
    (h : ∀ x ∈ l, p x = true → q x = true) :
    (l.filter p).length ≤ (l.filter q).length := by
  induction l with
  | nil => simp
  | cons a t ih =>
    have iht := ih (fun x hx => h x (List.mem_cons_of_mem a hx))
    by_cases hp : p a = true
    · rw [List.filter_cons_of_pos hp, List.filter_cons_of_pos (h a (List.mem_cons_self ..) hp)]
      simpa using iht
    · rw [List.filter_cons_of_neg (by simpa using hp)]
      by_cases hq : q a = true
      · rw [List.filter_cons_of_pos hq]
        exact Nat.le_succ_of_le iht
      · rw [List.filter_cons_of_neg (by simpa using hq)]
        exact iht

theorem contains_eq_true_iff (l : List String) (a : String) :
    l.contains a = true ↔ a ∈ l := List.elem_iff

theorem unvisitedCount_mono (g : List (String × List String)) (v v' : List String)
    (h : ∀ x, x ∈ v → x ∈ v') : unvisitedCount g v' ≤ unvisitedCount g v := by
  apply length_filter_mono
  intro x hx hp
  simp only [Bool.not_eq_true'] at hp ⊢
  cases hc : v.contains x with
  | false => rfl
  | true =>
    have hv' : x ∈ v' := h x ((contains_eq_true_iff v x).mp hc)
    have : v'.contains x = true := (contains_eq_true_iff v' x).mpr hv'
    rw [this] at hp
    cases hp

theorem setTrue_contains_imp (v : List String) (n x : String)
    (hp : (!((setTrue v n).contains x)) = true) : (!(v.contains x)) = true := by
  simp only [Bool.not_eq_true'] at hp ⊢
  cases hc : v.contains x with
  | false => rfl
  | true =>
    have hx : x ∈ setTrue v n :=
      (mem_setTrue v n x).mpr (Or.inr ((contains_eq_true_iff v x).mp hc))
    have hcc : (setTrue v n).contains x = true := (contains_eq_true_iff _ x).mpr hx
    rw [hcc] at hp
    cases hp

theorem filter_setTrue_lt (keys : List String) (v : List String) (n : String)
    (hn : n ∈ keys) (hnv : n ∉ v) :
    (keys.filter (fun k => !((setTrue v n).contains k))).length
      < (keys.filter (fun k => !(v.contains k))).length := by
  induction keys with
  | nil => cases hn
  | cons a t ih =>
    by_cases han : a = n
    · subst han
      have hm : a ∈ setTrue v a := (mem_setTrue v a a).mpr (Or.inl rfl)
      have hc1 : (setTrue v a).contains a = true := (contains_eq_true_iff _ a).mpr hm
      have hc2 : v.contains a = false := by
        cases hc : v.contains a with
        | false => rfl
        | true => exact absurd ((contains_eq_true_iff v a).mp hc) hnv
      rw [List.filter_cons, List.filter_cons]
      simp only [hc1, hc2, Bool.not_true, Bool.not_false, Bool.false_eq_true, if_false, if_true]
      have hmono : (t.filter (fun k => !((setTrue v a).contains k))).length
          ≤ (t.filter (fun k => !(v.contains k))).length :=
        length_filter_mono t _ _ (fun x _ hp => setTrue_contains_imp v a x hp)
      simpa using Nat.lt_succ_of_le hmono
    · have hnt : n ∈ t := by
        rcases List.mem_cons.mp hn with h | h
        · exact absurd h.symm han
        · exact h
      have iht := ih hnt
      have hceq : (setTrue v n).contains a = v.contains a := by
        by_cases hav : a ∈ v
        · have hs : a ∈ setTrue v n := (mem_setTrue v n a).mpr (Or.inr hav)
          rw [(contains_eq_true_iff _ a).mpr hs, (contains_eq_true_iff v a).mpr hav]
        · have h1 : (setTrue v n).contains a = false := by
            cases hc : (setTrue v n).contains a with
            | false => rfl
            | true =>
              rcases (mem_setTrue v n a).mp ((contains_eq_true_iff _ a).mp hc) with h | h
              · exact absurd h han
              · exact absurd h hav
          have h2 : v.contains a = false := by
            cases hc : v.contains a with
            | false => rfl
            | true => exact absurd ((contains_eq_true_iff v a).mp hc) hav
          rw [h1, h2]
      rw [List.filter_cons, List.filter_cons]
      simp only [hceq]
      cases hvca : v.contains a with
      | true =>
        simp only [hvca, Bool.not_true, Bool.false_eq_true, if_false]
        exact iht
      | false =>
        simp only [hvca, Bool.not_false, if_true, List.length_cons]
        exact Nat.succ_lt_succ iht

theorem unvisitedCount_setTrue_lt (g : List (String × List String)) (v : List String)
    (n : String) (hn : n ∈ g.map Prod.fst) (hnv : n ∉ v) :
    unvisitedCount g (setTrue v n) < unvisitedCount g v :=
  filter_setTrue_lt (g.map Prod.fst) v n hn hnv

/-- What one completed `simpleVisit` call does: it marks `n` visited, appends
to `result2` a duplicate-free block of previously-unvisited graph keys (plus
possibly `n` itself), and the new visited set is exactly the old one plus that
block. -/
theorem visit2_spec (g : List (String × List String)) (cycles : List String) :
    ∀ (fuel : Nat) (st : List String × List String) (n : String)
      (st2 : List String × List String),
      visit2 g cycles fuel st n = some st2 →
      n ∈ st2.1 ∧
      ∃ Δ, st2.2 = st.2 ++ Δ ∧ Δ.Nodup ∧
        (∀ x ∈ Δ, x ∉ st.1 ∧ (x = n ∨ x ∈ g.map Prod.fst)) ∧
        (∀ x, x ∈ st2.1 ↔ x ∈ st.1 ∨ x ∈ Δ) := by
  intro fuel
  induction fuel with
  | zero =>
    intro st n st2 h
    simp [visit2] at h
  | succ m ih =>
    intro st n st2 h
    unfold visit2 at h
    by_cases hv : n ∈ st.1
    · rw [if_pos hv] at h
      obtain rfl : st = st2 := Option.some.inj h
      exact ⟨hv, [], by simp, by simp, by simp, fun x => by simp⟩
    · rw [if_neg hv] at h
      have aux : ∀ (deps : List String) (s0 sF : List String × List String),
          List.foldlM (fun s dep =>
            if (jsGet g dep).isSome && !(cycles.contains dep) then visit2 g cycles m s dep
            else some s) s0 deps = some sF →
          ∃ Δ, sF.2 = s0.2 ++ Δ ∧ Δ.Nodup ∧
            (∀ x ∈ Δ, x ∉ s0.1 ∧ x ∈ g.map Prod.fst) ∧
            (∀ x, x ∈ sF.1 ↔ x ∈ s0.1 ∨ x ∈ Δ) := by
        intro deps
        induction deps with
        | nil =>
          intro s0 sF hf
          rw [List.foldlM_nil] at hf
          obtain rfl : s0 = sF := Option.some.inj hf
          exact ⟨[], by simp, by simp, by simp, fun x => by simp⟩
        | cons d ds ihd =>
          intro s0 sF hf
          rw [List.foldlM_cons] at hf
          by_cases hcond : ((jsGet g d).isSome && !(cycles.contains d)) = true
          · rw [if_pos hcond] at hf
            cases hv2 : visit2 g cycles m s0 d with
            | none => rw [hv2] at hf; simp at hf
            | some s1 =>
              rw [hv2] at hf
              rw [Option.bind_eq_bind, Option.some_bind] at hf
              obtain ⟨hdin, Δ1, h1eq, h1nd, h1p, h1v⟩ := ih s0 d s1 hv2
              obtain ⟨Δ2, h2eq, h2nd, h2p, h2v⟩ := ihd s1 sF hf
              have hdkeys : d ∈ g.map Prod.fst := by
                rw [Bool.and_eq_true] at hcond
                exact jsGet_isSome_mem_keys g d hcond.1
              refine ⟨Δ1 ++ Δ2, ?_, ?_, ?_, ?_⟩
              · rw [h2eq, h1eq, List.append_assoc]
              · rw [List.nodup_append]
                exact ⟨h1nd, h2nd, fun a ha1 ha2 =>
                  (h2p a ha2).1 ((h1v a).mpr (Or.inr ha1))⟩
              · intro x hx
                rcases List.mem_append.mp hx with hx1 | hx2
                · refine ⟨(h1p x hx1).1, ?_⟩
                  rcases (h1p x hx1).2 with rfl | hk
                  · exact hdkeys
                  · exact hk
                · exact ⟨fun hx0 => (h2p x hx2).1 ((h1v x).mpr (Or.inl hx0)),
                    (h2p x hx2).2⟩
              · intro x
                rw [h2v x, h1v x, List.mem_append]
                tauto
          · rw [if_neg hcond] at hf
            rw [Option.bind_eq_bind, Option.some_bind] at hf
            exact ihd s0 sF hf
      cases hfold : List.foldlM (fun s dep =>
          if (jsGet g dep).isSome && !(cycles.contains dep) then visit2 g cycles m s dep
          else some s) (setTrue st.1 n, st.2) (graphDeps g n) with
      | none => rw [hfold] at h; cases h
      | some smid =>
        rw [hfold] at h
        obtain rfl : (smid.1, smid.2 ++ [n]) = st2 := Option.some.inj h
        obtain ⟨Δf, hfeq, hfnd, hfp, hfv⟩ := aux (graphDeps g n) (setTrue st.1 n, st.2)
          smid hfold
        have hmemn : n ∈ setTrue st.1 n := (mem_setTrue st.1 n n).mpr (Or.inl rfl)
        refine ⟨(hfv n).mpr (Or.inl hmemn), Δf ++ [n], ?_, ?_, ?_, ?_⟩
        · show smid.2 ++ [n] = st.2 ++ (Δf ++ [n])
          rw [hfeq]
          exact (List.append_assoc ..)
        · rw [List.nodup_append]
          refine ⟨hfnd, List.nodup_singleton n, fun a ha1 ha2 => ?_⟩
          rw [List.mem_singleton.mp ha2] at ha1
          exact (hfp n ha1).1 hmemn
        · intro x hx
          rcases List.mem_append.mp hx with hx1 | hx2
          · refine ⟨fun hxst => (hfp x hx1).1 ((mem_setTrue st.1 n x).mpr (Or.inr hxst)),
              Or.inr (hfp x hx1).2⟩
          · rw [List.mem_singleton.mp hx2]
            exact ⟨hv, Or.inl rfl⟩
        · intro x
          show x ∈ smid.1 ↔ _
          rw [hfv x, mem_setTrue, List.mem_append, List.mem_singleton]
          tauto

/-- Fuel sufficiency for the second pass: any budget exceeding the number of
unvisited graph keys lets `simpleVisit` run to completion.  This is the
termination argument for the source recursion: each nested call starts from a
strictly larger visited set. -/
theorem visit2_isSome (g : List (String × List String)) (cycles : List String) :
    ∀ (fuel : Nat) (st : List String × List String) (n : String),
      n ∈ g.map Prod.fst →
      unvisitedCount g st.1 < fuel →
      (visit2 g cycles fuel st n).isSome = true := by
  intro fuel
  induction fuel with
  | zero =>
    intro st n hn hm
    exact absurd hm (Nat.not_lt_zero _)
  | succ m ih =>
    intro st n hn hm
    unfold visit2
    by_cases hv : n ∈ st.1
    · rw [if_pos hv]
      rfl
    · rw [if_neg hv]
      have hm1 : unvisitedCount g (setTrue st.1 n) < m := by
        have hlt := unvisitedCount_setTrue_lt g st.1 n hn hv
        omega
      have aux : ∀ (deps : List String) (s0 : List String × List String),
          unvisitedCount g s0.1 < m →
          ∃ sF, List.foldlM (fun s dep =>
              if (jsGet g dep).isSome && !(cycles.contains dep) then visit2 g cycles m s dep
              else some s) s0 deps = some sF
            ∧ unvisitedCount g sF.1 ≤ unvisitedCount g s0.1 := by
        intro deps
        induction deps with
        | nil =>
          intro s0 hs0
          exact ⟨s0, List.foldlM_nil .., Nat.le_refl _⟩
        | cons d ds ihd =>
          intro s0 hs0
          rw [List.foldlM_cons]
          by_cases hcond : ((jsGet g d).isSome && !(cycles.contains d)) = true
          · rw [if_pos hcond]
            have hdkeys : d ∈ g.map Prod.fst := by
              rw [Bool.and_eq_true] at hcond
              exact jsGet_isSome_mem_keys g d hcond.1
            have hsome := ih s0 d hdkeys hs0
            cases hv2 : visit2 g cycles m s0 d with
            | none => rw [hv2] at hsome; cases hsome
            | some s1 =>
              have hmono : unvisitedCount g s1.1 ≤ unvisitedCount g s0.1 := by
                obtain ⟨_, Δ, _, _, _, hiff⟩ := visit2_spec g cycles m s0 d s1 hv2
                exact unvisitedCount_mono g s0.1 s1.1 (fun x hx => (hiff x).mpr (Or.inl hx))
              obtain ⟨sF, hfold, hle⟩ := ihd s1 (Nat.lt_of_le_of_lt hmono hs0)
              refine ⟨sF, ?_, Nat.le_trans hle hmono⟩
              rw [Option.bind_eq_bind, Option.some_bind]
              exact hfold
          · rw [if_neg hcond]
            obtain ⟨sF, hfold, hle⟩ := ihd s0 hs0
            refine ⟨sF, ?_, hle⟩
            rw [Option.bind_eq_bind, Option.some_bind]
            exact hfold
      obtain ⟨smid, hfold, _⟩ := aux (graphDeps g n) (setTrue st.1 n, st.2) hm1
      rw [hfold]
      rfl

theorem setFalse_setTrue (l : List String) (n : String) (h : n ∉ l) :
    setFalse (setTrue l n) n = l := by
  unfold setTrue setFalse
  rw [if_neg h, List.filter_cons, if_neg (by simp)]
  apply List.filter_eq_self.mpr
  intro a ha
  have hne : a ≠ n := fun hc => h (hc ▸ ha)
  simpa using hne

/-- A completed first-pass `visit` leaves the truthy `temp` set exactly as it
found it: the node's mark is set on entry and cleared on exit, and recursive
calls preserve their own marks. -/
theorem visit1_temp_eq (g : List (String × List String)) :
    ∀ (fuel : Nat) (st : TopoSt) (n : String) (path : List String) (st2 : TopoSt),
      visit1 g fuel st n path = some st2 → st2.temp = st.temp := by
  intro fuel
  induction fuel with
  | zero =>
    intro st n path st2 h
    simp [visit1] at h
  | succ m ih =>
    intro st n path st2 h
    unfold visit1 at h
    by_cases hv : n ∈ st.visited
    · rw [if_pos hv] at h
      obtain rfl : st = st2 := Option.some.inj h
      rfl
    · rw [if_neg hv] at h
      by_cases ht : n ∈ st.temp
      · rw [if_pos ht] at h
        obtain rfl := Option.some.inj h
        split <;> rfl
      · rw [if_neg ht] at h
        have aux : ∀ (deps : List String) (s0 sF : TopoSt),
            List.foldlM (fun s dep =>
              if (jsGet g dep).isSome && !(s.cycles.contains dep) then
                visit1 g m s dep (path ++ [n])
              else some s) s0 deps = some sF → sF.temp = s0.temp := by
          intro deps
          induction deps with
          | nil =>
            intro s0 sF hf
            rw [List.foldlM_nil] at hf
            obtain rfl := Option.some.inj hf
            rfl
          | cons d ds ihd =>
            intro s0 sF hf
            rw [List.foldlM_cons] at hf
            by_cases hcond : ((jsGet g d).isSome && !(s0.cycles.contains d)) = true
            · rw [if_pos hcond] at hf
              cases hv1 : visit1 g m s0 d (path ++ [n]) with
              | none => rw [hv1] at hf; cases hf
              | some s1 =>
                rw [hv1, Option.bind_eq_bind, Option.some_bind] at hf
                rw [ihd s1 sF hf, ih s0 d (path ++ [n]) s1 hv1]
            · rw [if_neg hcond, Option.bind_eq_bind, Option.some_bind] at hf
              exact ihd s0 sF hf
        cases hfold : List.foldlM (fun s dep =>
            if (jsGet g dep).isSome && !(s.cycles.contains dep) then
              visit1 g m s dep (path ++ [n])
            else some s) { st with temp := setTrue st.temp n } (graphDeps g n) with
        | none => rw [hfold] at h; cases h
        | some smid =>
          rw [hfold] at h
          obtain rfl := Option.some.inj h
          show setFalse smid.temp n = st.temp
          rw [aux (graphDeps g n) _ smid hfold]
          exact setFalse_setTrue st.temp n ht

/-- Fuel sufficiency for the first pass, with the number of un-temp-marked
graph keys as the measure (the recursion path is exactly the temp set). -/
theorem visit1_isSome (g : List (String × List String)) :
    ∀ (fuel : Nat) (st : TopoSt) (n : String) (path : List String),
      n ∈ g.map Prod.fst →
      unvisitedCount g st.temp < fuel →
      (visit1 g fuel st n path).isSome = true := by
  intro fuel
  induction fuel with
  | zero =>
    intro st n path hn hm
    exact absurd hm (Nat.not_lt_zero _)
  | succ m ih =>
    intro st n path hn hm
    unfold visit1
    by_cases hv : n ∈ st.visited
    · rw [if_pos hv]
      rfl
    · rw [if_neg hv]
      by_cases ht : n ∈ st.temp
      · rw [if_pos ht]
        rfl
      · rw [if_neg ht]
        have hm1 : unvisitedCount g (setTrue st.temp n) < m := by
          have hlt := unvisitedCount_setTrue_lt g st.temp n hn ht
          omega
        have aux : ∀ (deps : List String) (s0 : TopoSt),
            unvisitedCount g s0.temp < m →
            ∃ sF, List.foldlM (fun s dep =>
                if (jsGet g dep).isSome && !(s.cycles.contains dep) then
                  visit1 g m s dep (path ++ [n])
                else some s) s0 deps = some sF
              ∧ sF.temp = s0.temp := by
          intro deps
          induction deps with
          | nil =>
            intro s0 hs0
            exact ⟨s0, List.foldlM_nil .., rfl⟩
          | cons d ds ihd =>
            intro s0 hs0
            rw [List.foldlM_cons]
            by_cases hcond : ((jsGet g d).isSome && !(s0.cycles.contains d)) = true
            · rw [if_pos hcond]
              have hdkeys : d ∈ g.map Prod.fst := by
                rw [Bool.and_eq_true] at hcond
                exact jsGet_isSome_mem_keys g d hcond.1
              have hsome := ih s0 d (path ++ [n]) hdkeys hs0
              cases hv1 : visit1 g m s0 d (path ++ [n]) with
              | none => rw [hv1] at hsome; cases hsome
              | some s1 =>
                have htemp : s1.temp = s0.temp := visit1_temp_eq g m s0 d (path ++ [n]) s1 hv1
                obtain ⟨sF, hfold, heq⟩ := ihd s1 (htemp ▸ hs0)
                refine ⟨sF, ?_, heq.trans htemp⟩
                rw [Option.bind_eq_bind, Option.some_bind]
                exact hfold
            · rw [if_neg hcond]
              obtain ⟨sF, hfold, heq⟩ := ihd s0 hs0
              refine ⟨sF, ?_, heq⟩
              rw [Option.bind_eq_bind, Option.some_bind]
              exact hfold
        obtain ⟨smid, hfold, _⟩ := aux (graphDeps g n) { st with temp := setTrue st.temp n } hm1
        rw [hfold]
        rfl

/-- The first top-level loop of `topologicalSort` runs to completion and
leaves the temp set empty. -/
theorem pass1_loop_some (g : List (String × List String)) (fuel : Nat)
    (hfuel : g.length < fuel) :
    ∀ (nodes : List String), (∀ x ∈ nodes, x ∈ g.map Prod.fst) →
    ∀ (s0 : TopoSt), s0.temp = [] →
    ∃ sF, List.foldlM (fun st node =>
        if node ∈ st.visited then some st else visit1 g fuel st node []) s0 nodes = some sF
      ∧ sF.temp = [] := by
  intro nodes
  induction nodes with
  | nil =>
    intro _ s0 hs0
    exact ⟨s0, List.foldlM_nil .., hs0⟩
  | cons a t ih =>
    intro hsub s0 hs0
    rw [List.foldlM_cons]
    by_cases hv : a ∈ s0.visited
    · rw [if_pos hv, Option.bind_eq_bind, Option.some_bind]
      exact ih (fun x hx => hsub x (List.mem_cons_of_mem a hx)) s0 hs0
    · rw [if_neg hv]
      have hmu : unvisitedCount g s0.temp < fuel := by
        have := unvisitedCount_le g s0.temp
        omega
      have hsome := visit1_isSome g fuel s0 a [] (hsub a (List.mem_cons_self ..)) hmu
      cases hv1 : visit1 g fuel s0 a [] with
      | none => rw [hv1] at hsome; cases hsome
      | some s1 =>
        rw [Option.bind_eq_bind, Option.some_bind]
        have htemp : s1.temp = [] := (visit1_temp_eq g fuel s0 a [] s1 hv1).trans hs0
        exact ih (fun x hx => hsub x (List.mem_cons_of_mem a hx)) s1 htemp

/-- `topologicalSort` in terms of its two top-level folds. -/
theorem topologicalSort_eq_of (g : List (String × List String)) (st1 : TopoSt)
    (st2 : List String × List String)
    (h1 : (g.map Prod.fst).foldlM (fun st node =>
        if node ∈ st.visited then some st
        else visit1 g ((g.map Prod.fst).length + 1) st node [])
        (⟨[], [], [], []⟩ : TopoSt) = some st1)
    (h2 : (g.map Prod.fst).foldlM (fun s node =>
        if node ∈ s.1 then some s
        else visit2 g st1.cycles ((g.map Prod.fst).length + 1) s node)
        (([], []) : List String × List String) = some st2) :
    topologicalSort g = some st2.2.reverse := by
  simp only [topologicalSort, h1, h2]

/-- The second top-level loop of `topologicalSort` runs to completion; its
appended output block is duplicate-free, consists of graph keys, coincides
with the growth of the visited set, and covers every node of the iterated
list. -/
theorem pass2_loop_spec (g : List (String × List String)) (cycles : List String)
    (fuel : Nat) (hfuel : g.length < fuel) :
    ∀ (nodes : List String), (∀ x ∈ nodes, x ∈ g.map Prod.fst) →
    ∀ (s0 : List String × List String),
    ∃ sF, List.foldlM (fun s node =>
        if node ∈ s.1 then some s else visit2 g cycles fuel s node) s0 nodes = some sF
      ∧ ∃ Δ, sF.2 = s0.2 ++ Δ ∧ Δ.Nodup
        ∧ (∀ x ∈ Δ, x ∉ s0.1 ∧ x ∈ g.map Prod.fst)
        ∧ (∀ x, x ∈ sF.1 ↔ x ∈ s0.1 ∨ x ∈ Δ)
        ∧ (∀ k ∈ nodes, k ∈ sF.1) := by
  intro nodes
  induction nodes with
  | nil =>
    intro _ s0
    exact ⟨s0, List.foldlM_nil .., [], by simp, by simp, by simp, fun x => by simp,
      by simp⟩
  | cons a t ih =>
    intro hsub s0
    rw [List.foldlM_cons]
    by_cases hv : a ∈ s0.1
    · rw [if_pos hv, Option.bind_eq_bind, Option.some_bind]
      obtain ⟨sF, hfold, Δ, heq, hnd, hp, hiff, hcov⟩ :=
        ih (fun x hx => hsub x (List.mem_cons_of_mem a hx)) s0
      refine ⟨sF, hfold, Δ, heq, hnd, hp, hiff, ?_⟩
      intro k hk
      rcases List.mem_cons.mp hk with rfl | hkt
      · exact (hiff k).mpr (Or.inl hv)
      · exact hcov k hkt
    · rw [if_neg hv]
      have hmu : unvisitedCount g s0.1 < fuel := by
        have := unvisitedCount_le g s0.1
        omega
      have hsome := visit2_isSome g cycles fuel s0 a (hsub a (List.mem_cons_self ..)) hmu
      cases hv2 : visit2 g cycles fuel s0 a with
      | none => rw [hv2] at hsome; cases hsome
      | some s1 =>
        rw [Option.bind_eq_bind, Option.some_bind]
        obtain ⟨hain, Δ1, h1eq, h1nd, h1p, h1iff⟩ := visit2_spec g cycles fuel s0 a s1 hv2
        obtain ⟨sF, hfold, Δ2, h2eq, h2nd, h2p, h2iff, h2cov⟩ :=
          ih (fun x hx => hsub x (List.mem_cons_of_mem a hx)) s1
        refine ⟨sF, hfold, Δ1 ++ Δ2, ?_, ?_, ?_, ?_, ?_⟩
        · rw [h2eq, h1eq, List.append_assoc]
        · rw [List.nodup_append]
          exact ⟨h1nd, h2nd, fun x hx1 hx2 => (h2p x hx2).1 ((h1iff x).mpr (Or.inr hx1))⟩
        · intro x hx
          rcases List.mem_append.mp hx with hx1 | hx2
          · refine ⟨(h1p x hx1).1, ?_⟩
            rcases (h1p x hx1).2 with rfl | hk
            · exact hsub x (List.mem_cons_self ..)
            · exact hk
          · exact ⟨fun hx0 => (h2p x hx2).1 ((h1iff x).mpr (Or.inl hx0)), (h2p x hx2).2⟩
        · intro x
          rw [h2iff x, h1iff x, List.mem_append]
          tauto
        · intro k hk
          rcases List.mem_cons.mp hk with rfl | hkt
          · exact (h2iff k).mpr (Or.inl hain)
          · exact h2cov k hkt

/-- C5: for every dependency graph, `topologicalSort` terminates with a
result (never `none`, i.e. the fuel `keys.length + 1` always suffices) whose
entries are exactly the graph's entities, each occurring exactly once
(`Nodup` + membership equivalence); in particular on the mutual cycle
X→Y→X it terminates and returns both X and Y exactly once each. -/
theorem topologicalSort_terminates_covers_once :
    (∀ g : List (String × List String), ∃ l, topologicalSort g = some l
      ∧ l.Nodup ∧ ∀ k, k ∈ l ↔ k ∈ g.map Prod.fst)
    ∧ topologicalSort [((r"X"), [(r"Y")]), ((r"Y"), [(r"X")])] =
        some [(r"X"), (r"Y")] := by
  constructor
  · intro g
    have hfuel : g.length < (g.map Prod.fst).length + 1 := by
      simp
    obtain ⟨st1, hf1, _⟩ := pass1_loop_some g ((g.map Prod.fst).length + 1) hfuel
      (g.map Prod.fst) (fun x hx => hx) (⟨[], [], [], []⟩ : TopoSt) rfl
    obtain ⟨st2, hf2, Δ, heq, hnd, hp, hiff, hcov⟩ :=
      pass2_loop_spec g st1.cycles ((g.map Prod.fst).length + 1) hfuel
        (g.map Prod.fst) (fun x hx => hx) (([], []) : List String × List String)
    have hres : st2.2 = Δ := by simpa using heq
    refine ⟨st2.2.reverse, topologicalSort_eq_of g st1 st2 hf1 hf2, ?_, ?_⟩
    · rw [hres]
      exact List.nodup_reverse.mpr hnd
    · intro k
      rw [hres, List.mem_reverse]
      constructor
      · intro hk
        exact (hp k hk).2
      · intro hk
        rcases (hiff k).mp (hcov k hk) with h0 | hΔ
        · cases h0
        · exact hΔ
  · rfl

/-! ## Claim C6 — `toPascalCase ∘ toSnakeCase` versus `toPascalCase` -/

/-- C6 counterexample: on `UserId` the round trip does not commute —
`toSnakeCase` yields `user_id`, whose `Id`-suffix recursion then produces
`User_Id`, while `toPascalCase` alone yields `UserId`. -/
theorem pascal_snake_roundtrip_counterexample :
    toSnakeCase (r"UserId").toList = (r"user_id").toList
    ∧ toPascalCase (toSnakeCase (r"UserId").toList) = (r"User_Id").toList
    ∧ toPascalCase (r"UserId").toList = (r"UserId").toList
    ∧ toPascalCase (toSnakeCase (r"UserId").toList) ≠
        toPascalCase (r"UserId").toList :=
  ⟨by decide, by decide, by decide, by decide⟩

/-- Separator and space exclusions for the alphanumeric alphabet. -/
theorem alnum_not_sep : ∀ c ∈ alnumChars,
    c ≠ '-' ∧ c ≠ '_' ∧ jsIsSpace c = false := by
  decide

/-- Alphanumeric characters are word characters. -/
theorem alnum_word : ∀ c ∈ alnumChars, jsIsWordChar c = true := by
  decide

/-- Lower-casings of alphanumeric characters avoid the separators. -/
theorem alnum_lower_not_sep : ∀ c ∈ alnumChars,
    c.toLower ≠ '-' ∧ c.toLower ≠ '_' ∧ jsIsSpace c.toLower = false := by
  decide

/-- Lower-casings of alphanumeric characters are word characters. -/
theorem alnum_lower_word : ∀ c ∈ alnumChars, jsIsWordChar c.toLower = true := by
  decide

/-- Lower-casing is idempotent on the alphanumeric alphabet. -/
theorem alnum_lower_idem : ∀ c ∈ alnumChars,
    c.toLower.toLower = c.toLower := by
  decide

/-- Upper-casing undoes lower-casing on upper-case letters, which are also
fixed by upper-casing. -/
theorem alnum_upper_roundtrip : ∀ c ∈ alnumChars, c.isUpper = true →
    c.toLower.toUpper = c ∧ c.toUpper = c := by
  decide

/-- Non-upper-case alphanumeric characters are fixed by lower-casing. -/
theorem alnum_lower_fix : ∀ c ∈ alnumChars, c.isUpper = false →
    c.toLower = c := by
  decide

/-- Character facts for the snake_case alphabet. -/
theorem snake_char_facts : ∀ c ∈ snakeChars,
    c.isUpper = false ∧ c.toLower = c ∧ c ≠ '-' ∧ jsIsSpace c = false := by
  decide

/-- A map that fixes every element of a list is the identity there. -/
theorem map_id_of_fix {f : Char → Char} : ∀ {m : List Char},
    (∀ x ∈ m, f x = x) → m.map f = m := by
  intro m
  induction m with
  | nil => intro _; rfl
  | cons a t ih =>
    intro h
    simp [h a (List.mem_cons_self ..),
      ih (fun x hx => h x (List.mem_cons_of_mem a hx))]

/-- `expLower` splits over append. -/
theorem expLower_append (a b : List Char) :
    expLower (a ++ b) = expLower a ++ expLower b := by
  induction a with
  | nil => rfl
  | cons c t ih => simp [expLower, ih]

/-- Every character of `expLower l` is an underscore or the lower-casing of
a character of `l`. -/
theorem mem_expLower {x : Char} : ∀ {l : List Char}, x ∈ expLower l →
    x = '_' ∨ ∃ c ∈ l, x = c.toLower := by
  intro l
  induction l with
  | nil => intro h; cases h
  | cons c t ih =>
    intro h
    simp only [expLower] at h
    rcases List.mem_append.mp h with h1 | h2
    · by_cases hu : c.isUpper = true
      · rw [if_pos hu] at h1
        simp at h1
        rcases h1 with rfl | rfl
        · exact Or.inl rfl
        · exact Or.inr ⟨c, List.mem_cons_self .., rfl⟩
      · rw [if_neg hu] at h1
        simp at h1
        subst h1
        exact Or.inr ⟨c, List.mem_cons_self .., rfl⟩
    · rcases ih h2 with h | ⟨d, hd, he⟩
      · exact Or.inl h
      · exact Or.inr ⟨d, List.mem_cons_of_mem c hd, he⟩

/-- Membership survives the leading-underscore strip. -/
theorem mem_stripU {x : Char} {m : List Char} (hx : x ∈ stripU m) : x ∈ m := by
  cases m with
  | nil => exact hx
  | cons a t =>
    simp only [stripU] at hx
    by_cases ha : a = '_'
    · rw [if_pos ha] at hx
      exact List.mem_cons_of_mem a hx
    · rw [if_neg ha] at hx
      exact hx

/-- `_`-insertion followed by lower-casing is `expLower`. -/
theorem flatten_map_toLower (l : List Char) :
    ((l.map fun c => if c.isUpper then ['_', c] else [c]).flatten).map
      Char.toLower = expLower l := by
  induction l with
  | nil => rfl
  | cons c t ih =>
    by_cases hu : c.isUpper = true
    · simp only [List.map_cons, List.flatten_cons, List.map_append, ih, if_pos hu]
      simp [expLower, hu]
    · simp only [List.map_cons, List.flatten_cons, List.map_append, ih, if_neg hu]
      simp [expLower, hu]

/-- `toSnakeCase` computes `stripU ∘ expLower` whenever the final
dash/space-to-underscore pass has nothing to do. -/
theorem toSnakeCase_eq (l : List Char)
    (hg : ∀ x ∈ stripU (expLower l), x ≠ '-' ∧ jsIsSpace x = false) :
    toSnakeCase l = stripU (expLower l) := by
  simp only [toSnakeCase]
  rw [flatten_map_toLower]
  have hmap : ∀ x ∈ stripU (expLower l),
      (if x = '-' || jsIsSpace x then '_' else x) = x := by
    intro x hx
    have := hg x hx
    simp [this.1, this.2]
  split
  · rename_i t heq
    have hst : stripU (expLower l) = t := by
      rw [heq]
      simp [stripU]
    rw [hst]
    exact map_id_of_fix (fun x hx => hmap x (hst ▸ hx))
  · rename_i hne
    have hst : stripU (expLower l) = expLower l := by
      cases hE : expLower l with
      | nil => rfl
      | cons a t =>
        have ha : a ≠ '_' := by
          intro hc
          exact hne t (by rw [hE, hc])
        simp [stripU, ha]
    rw [hst]
    exact map_id_of_fix (fun x hx => hmap x (by rw [hst]; exact hx))

/-- For alphanumeric input the dash/space pass indeed has nothing to do. -/
theorem alnum_strip_guard {l : List Char} (hal : ∀ c ∈ l, c ∈ alnumChars) :
    ∀ x ∈ stripU (expLower l), x ≠ '-' ∧ jsIsSpace x = false := by
  intro x hx
  rcases mem_expLower (mem_stripU hx) with rfl | ⟨c, hc, rfl⟩
  · exact ⟨by decide, by decide⟩
  · exact ⟨(alnum_lower_not_sep c (hal c hc)).1,
      (alnum_lower_not_sep c (hal c hc)).2.2⟩

/-- On separator-free input, `pascalScan` is the identity. -/
theorem pascalScan_id : ∀ {l : List Char},
    (∀ c ∈ l, c ≠ '-' ∧ c ≠ '_') → pascalScan l = l := by
  intro l
  induction l with
  | nil => intro _; rfl
  | cons c t ih =>
    intro h
    have hc := h c (List.mem_cons_self ..)
    rw [pascalScan.eq_def]
    simp [hc.1, hc.2, ih (fun d hd => h d (List.mem_cons_of_mem c hd))]

/-- `pascalScan` inverts `expLower` on the alphanumeric alphabet. -/
theorem pascalScan_expLower : ∀ {l : List Char},
    (∀ c ∈ l, c ∈ alnumChars) → pascalScan (expLower l) = l := by
  intro l
  induction l with
  | nil => intro _; rfl
  | cons c t ih =>
    intro h
    have hc := h c (List.mem_cons_self ..)
    have ht := ih (fun d hd => h d (List.mem_cons_of_mem c hd))
    by_cases hu : c.isUpper = true
    · have hw := alnum_lower_word c hc
      have hr := (alnum_upper_roundtrip c hc hu).1
      simp [expLower, hu, pascalScan, hw, ht, hr]
    · have hu' : c.isUpper = false := by simpa using hu
      have hfix := alnum_lower_fix c hc hu'
      have hns := alnum_not_sep c hc
      have hstep : pascalScan (c :: expLower t) = c :: pascalScan (expLower t) := by
        rw [pascalScan.eq_def]
        simp [hns.1, hns.2.1]
      simp [expLower, hu', hfix, hstep, ht]

/-- With `lowerEndsId` refuted, `toPascalCase` is one scan plus a
capitalization. -/
theorem toPascalCase_not_endsId {m : List Char} (h : lowerEndsId m = false) :
    toPascalCase m = capitalizeFirst (pascalScan m) := by
  simp [toPascalCase, toPascalCaseGo, h]

/-- A failing `==` on lists of characters is a disequality. -/
theorem lowerEndsId_false_of_ne {m : List Char}
    (h : (m.map Char.toLower).reverse.take 2 ≠ ['d', 'i']) :
    lowerEndsId m = false := by
  rw [lowerEndsId]
  exact beq_eq_false_iff_ne.mpr h

/-- The converse direction of `lowerEndsId_false_of_ne`. -/
theorem ne_of_lowerEndsId_false {m : List Char} (h : lowerEndsId m = false) :
    (m.map Char.toLower).reverse.take 2 ≠ ['d', 'i'] := by
  rw [lowerEndsId] at h
  exact beq_eq_false_iff_ne.mp h

/-- Every list is empty, a singleton, or ends in two elements. -/
theorem list_back2 (l : List Char) :
    l = [] ∨ (∃ c, l = [c]) ∨ ∃ x b c, l = x ++ [b, c] := by
  induction l using List.reverseRecOn with
  | nil => exact Or.inl rfl
  | append_singleton m c ih =>
    rcases ih with rfl | ⟨b, rfl⟩ | ⟨x, u, v, rfl⟩
    · exact Or.inr (Or.inl ⟨c, rfl⟩)
    · exact Or.inr (Or.inr ⟨[], b, c, rfl⟩)
    · exact Or.inr (Or.inr ⟨x ++ [u], v, c, by simp⟩)

/-- The last two characters are unchanged by the strip of a leading
underscore when at least three characters are present. -/
theorem stripU_take2 {m : List Char} (hm : 3 ≤ m.length) :
    (stripU m).reverse.take 2 = m.reverse.take 2 := by
  cases m with
  | nil => simp at hm
  | cons a t =>
    simp only [stripU]
    by_cases ha : a = '_'
    · rw [if_pos ha, List.reverse_cons, List.take_append_eq_append_take]
      have h0 : 2 - t.reverse.length = 0 := by
        simp at hm ⊢
        omega
      rw [h0]
      simp
    · rw [if_neg ha]

/-- Taking the last two of a list that ends in `[u, v]`. -/
theorem take2_append (x : List Char) (u v : Char) :
    (x ++ [u, v]).reverse.take 2 = [v, u] := by
  simp [List.reverse_append, List.take_append_eq_append_take]

/-- `expLower` never shortens its input. -/
theorem expLower_length (l : List Char) : l.length ≤ (expLower l).length := by
  induction l with
  | nil => simp [expLower]
  | cons c t ih =>
    simp only [expLower]
    by_cases hu : c.isUpper = true
    · rw [if_pos hu]
      simp
      omega
    · rw [if_neg hu]
      simp
      omega

/-- The `Id`-suffix guard stays refuted across `toSnakeCase` on
alphanumeric input. -/
theorem lowerEndsId_toSnakeCase {l : List Char}
    (hal : ∀ c ∈ l, c ∈ alnumChars) (h : lowerEndsId l = false) :
    lowerEndsId (toSnakeCase l) = false := by
  have hsl : (toSnakeCase l).map Char.toLower = toSnakeCase l := by
    rw [toSnakeCase_eq l (alnum_strip_guard hal)]
    apply map_id_of_fix
    intro x hx
    rcases mem_expLower (mem_stripU hx) with rfl | ⟨c, hc, rfl⟩
    · decide
    · exact alnum_lower_idem c (hal c hc)
  apply lowerEndsId_false_of_ne
  rw [hsl, toSnakeCase_eq l (alnum_strip_guard hal)]
  have h' := ne_of_lowerEndsId_false h
  rcases list_back2 l with rfl | ⟨c, rfl⟩ | ⟨x, b, c, rfl⟩
  · intro hc
    simp [expLower, stripU] at hc
  · have hc := hal c (List.mem_cons_self ..)
    by_cases hu : c.isUpper = true
    · intro he
      rw [show expLower [c] = ['_', c.toLower] by simp [expLower, hu]] at he
      simp [stripU] at he
    · have hu' : c.isUpper = false := by simpa using hu
      intro he
      rw [show expLower [c] = [c.toLower] by simp [expLower, hu']] at he
      have hne : c.toLower ≠ '_' := (alnum_lower_not_sep c hc).2.1
      simp [stripU, hne] at he
  · have hb : b ∈ alnumChars := hal b (by simp)
    have hcc : c ∈ alnumChars := hal c (by simp)
    have hx1 : 1 ≤ (expLower x).length + (if b.isUpper = true then
        (['_', b.toLower] : List Char) else [b.toLower]).length := by
      by_cases hbu : b.isUpper = true
      · rw [if_pos hbu]
        simp
      · rw [if_neg hbu]
        simp
    by_cases hcu : c.isUpper = true
    · have hm : expLower (x ++ [b, c]) = (expLower x
          ++ (if b.isUpper = true then ['_', b.toLower] else [b.toLower]))
          ++ ['_', c.toLower] := by
        rw [expLower_append]
        simp [expLower, hcu, List.append_assoc]
      have hm3 : 3 ≤ (expLower (x ++ [b, c])).length := by
        rw [hm]
        simp
        omega
      rw [stripU_take2 hm3, hm, take2_append]
      intro he
      have h2 : ('_' : Char) = 'i' := by
        have := List.cons.injEq (c.toLower) ['_'] 'd' ['i'] ▸ he
        exact (List.cons.injEq '_' [] 'i' [] ▸ (this.2 : (['_'] : List Char) = ['i'])).1
      exact absurd h2 (by decide)
    · have hcu' : c.isUpper = false := by simpa using hcu
      have hcl : c.toLower = c := alnum_lower_fix c hcc hcu'
      rw [List.map_append] at h'
      simp only [List.map_cons, List.map_nil] at h'
      rw [take2_append] at h'
      rw [hcl] at h'
      by_cases hbu : b.isUpper = true
      · have hm : expLower (x ++ [b, c]) = (expLower x ++ ['_'])
            ++ [b.toLower, c] := by
          rw [expLower_append]
          simp [expLower, hbu, hcu', hcl, List.append_assoc]
        have hm3 : 3 ≤ (expLower (x ++ [b, c])).length := by
          rw [hm]
          simp
        rw [stripU_take2 hm3, hm, take2_append]
        exact h'
      · have hbu' : b.isUpper = false := by simpa using hbu
        have hbl : b.toLower = b := alnum_lower_fix b hb hbu'
        rw [hbl] at h'
        have hm : expLower (x ++ [b, c]) = expLower x ++ [b, c] := by
          rw [expLower_append]
          simp [expLower, hbu', hcu', hbl, hcl]
        rw [hm]
        have hbne : b ≠ '_' := (alnum_not_sep b hb).2.1
        cases hE : expLower x with
        | nil =>
          simp [stripU, hbne]
          exact fun hcd hbi => h' (by rw [hcd, hbi])
        | cons a t =>
          have hm3 : 3 ≤ ((a :: t) ++ [b, c]).length := by
            simp
          rw [stripU_take2 hm3, take2_append]
          exact h'

/-- Capitalised scans agree between an identifier and its snake form. -/
theorem capFirst_scan_snake {l : List Char}
    (hal : ∀ c ∈ l, c ∈ alnumChars) :
    capitalizeFirst (pascalScan (toSnakeCase l))
      = capitalizeFirst (pascalScan l) := by
  rw [toSnakeCase_eq l (alnum_strip_guard hal),
    pascalScan_id (fun c hc => ⟨(alnum_not_sep c (hal c hc)).1,
      (alnum_not_sep c (hal c hc)).2.1⟩)]
  cases l with
  | nil => rfl
  | cons c t =>
    have hc := hal c (List.mem_cons_self ..)
    have ht : ∀ d ∈ t, d ∈ alnumChars :=
      fun d hd => hal d (List.mem_cons_of_mem c hd)
    by_cases hu : c.isUpper = true
    · have h1 := (alnum_upper_roundtrip c hc hu).1
      have h2 := (alnum_upper_roundtrip c hc hu).2
      have hw := alnum_lower_word c hc
      have hlns := alnum_lower_not_sep c hc
      have hm : stripU (expLower (c :: t)) = c.toLower :: expLower t := by
        simp [expLower, hu, stripU]
      rw [hm]
      rw [show pascalScan (c.toLower :: expLower t)
          = c.toLower :: pascalScan (expLower t) by
        rw [pascalScan.eq_def]
        simp [hlns.1, hlns.2.1]]
      rw [pascalScan_expLower ht]
      simp [capitalizeFirst, hw, alnum_word c hc, h1, h2]
    · have hu' : c.isUpper = false := by simpa using hu
      have hfix := alnum_lower_fix c hc hu'
      have hns := alnum_not_sep c hc
      have hm : stripU (expLower (c :: t)) = c :: expLower t := by
        simp [expLower, hu', stripU, hfix, hns.2.1]
      rw [hm]
      rw [show pascalScan (c :: expLower t)
          = c :: pascalScan (expLower t) by
        rw [pascalScan.eq_def]
        simp [hns.1, hns.2.1]]
      rw [pascalScan_expLower ht]

/-- Identifiers over the snake_case alphabet with no leading underscore are
fixed points of `toSnakeCase`. -/
theorem toSnakeCase_fix {l : List Char} (hsn : ∀ c ∈ l, c ∈ snakeChars)
    (hh : l.head? ≠ some '_') : toSnakeCase l = l := by
  have hexp : ∀ {m : List Char}, (∀ c ∈ m, c ∈ snakeChars) →
      expLower m = m := by
    intro m
    induction m with
    | nil => intro _; rfl
    | cons a t ih =>
      intro hm
      have ha := snake_char_facts a (hm a (List.mem_cons_self ..))
      simp [expLower, ha.1, ha.2.1,
        ih (fun d hd => hm d (List.mem_cons_of_mem a hd))]
  have hg : ∀ x ∈ stripU (expLower l), x ≠ '-' ∧ jsIsSpace x = false := by
    intro x hx
    rw [hexp hsn] at hx
    have := snake_char_facts x (hsn x (mem_stripU hx))
    exact ⟨this.2.2.1, this.2.2.2⟩
  rw [toSnakeCase_eq l hg, hexp hsn]
  cases l with
  | nil => rfl
  | cons a t =>
    have ha : a ≠ '_' := by
      intro hc
      exact hh (by rw [hc]; rfl)
    simp [stripU, ha]

/-- C6 (amended): `toPascalCase (toSnakeCase x) = toPascalCase x` holds for
identifiers made of ASCII letters and digits whose lower-casing does not end
in `id` (such as `CreatedAt`), and for identifiers over the snake_case
alphabet (lower-case letters, digits, underscores) with no leading
underscore (such as `user_name`); the `Id`-suffix special case of
`toPascalCase` breaks the equation otherwise, as the counterexample `UserId`
shows. -/
theorem pascal_snake_roundtrip_amended (l : List Char)
    (h : ((∀ c ∈ l, c ∈ alnumChars) ∧ lowerEndsId l = false)
       ∨ ((∀ c ∈ l, c ∈ snakeChars) ∧ l.head? ≠ some '_')) :
    toPascalCase (toSnakeCase l) = toPascalCase l := by
  rcases h with ⟨hal, hid⟩ | ⟨hsn, hh⟩
  · rw [toPascalCase_not_endsId (lowerEndsId_toSnakeCase hal hid),
      toPascalCase_not_endsId hid]
    exact capFirst_scan_snake hal
  · rw [toSnakeCase_fix hsn hh]

/-- C6 witness: the amended equation at the concrete identifiers
`CreatedAt` (alphanumeric branch) and `user_name` (snake_case branch). -/
theorem pascal_snake_roundtrip_amended_witness :
    toPascalCase (toSnakeCase (r"CreatedAt").toList)
      = toPascalCase (r"CreatedAt").toList
    ∧ toPascalCase (toSnakeCase (r"user_name").toList)
      = toPascalCase (r"user_name").toList :=
  ⟨pascal_snake_roundtrip_amended ((r"CreatedAt").toList)
      (Or.inl ⟨by decide, by decide⟩),
    pascal_snake_roundtrip_amended ((r"user_name").toList)
      (Or.inr ⟨by decide, by decide⟩)⟩

/-! ## Claim C7 — the `Id`-suffix rule of `transformCase` -/

/-- C7 counterexample: for the `snake` style the `Id` rule does not apply —
`transformCase \x7buserId: 1\x7d 'snake'` recases the whole key to
`user_id`, which does not end in the literal `Id`. -/
theorem transformCase_snake_id_counterexample :
    transformCase (JsValue.obj [((r"userId"), JsValue.int 1)]) (r"snake")
      = JsValue.obj [((r"user_id"), JsValue.int 1)]
    ∧ (r"user_id").toList.reverse.take 2 ≠ ['d', 'I'] :=
  ⟨rfl, by decide⟩

/-- A true `Id`-suffix guard forces at least two characters. -/
theorem lowerEndsId_length {l : List Char} (h : lowerEndsId l = true) :
    2 ≤ l.length := by
  rw [lowerEndsId] at h
  have he := eq_of_beq h
  have hlen := congrArg List.length he
  simp at hlen
  omega

/-- Fuel irrelevance for the `toPascalCase` recursion. -/
theorem toPascalCaseGo_fuel : ∀ f1 f2 (l : List Char), l.length < f1 →
    l.length < f2 → toPascalCaseGo f1 l = toPascalCaseGo f2 l := by
  intro f1
  induction f1 with
  | zero =>
    intro f2 l h1 _
    omega
  | succ f ih =>
    intro f2 l h1 h2
    cases f2 with
    | zero => omega
    | succ g =>
      simp only [toPascalCaseGo]
      by_cases hid : lowerEndsId l = true
      · have hlen := lowerEndsId_length hid
        have htl : (l.take (l.length - 2)).length = l.length - 2 := by
          simp
        rw [hid]
        simp only [if_true]
        rw [ih g (l.take (l.length - 2)) (by omega) (by omega)]
      · have hid' : lowerEndsId l = false := by simpa using hid
        rw [hid']
        simp

/-- Fuel irrelevance for the `toCamelCase` recursion. -/
theorem toCamelCaseGo_fuel : ∀ f1 f2 (l : List Char), l.length < f1 →
    l.length < f2 → toCamelCaseGo f1 l = toCamelCaseGo f2 l := by
  intro f1
  induction f1 with
  | zero =>
    intro f2 l h1 _
    omega
  | succ f ih =>
    intro f2 l h1 h2
    cases f2 with
    | zero => omega
    | succ g =>
      simp only [toCamelCaseGo]
      by_cases hid : lowerEndsId l = true
      · have hlen := lowerEndsId_length hid
        have htl : (l.take (l.length - 2)).length = l.length - 2 := by
          simp
        rw [hid]
        simp only [if_true]
        rw [ih g (l.take (l.length - 2)) (by omega) (by omega)]
      · have hid' : lowerEndsId l = false := by simpa using hid
        rw [hid']
        simp

/-- The `Id`-suffix equation of `toPascalCase`. -/
theorem toPascalCase_endsId {k : List Char} (h : lowerEndsId k = true) :
    toPascalCase k = toPascalCase (k.take (k.length - 2)) ++ ['I', 'd'] := by
  have hlen := lowerEndsId_length h
  have htl : (k.take (k.length - 2)).length = k.length - 2 := by
    simp
  simp only [toPascalCase]
  have h1 : toPascalCaseGo (k.length + 1) k
      = toPascalCaseGo k.length (k.take (k.length - 2)) ++ ['I', 'd'] := by
    simp only [toPascalCaseGo]
    rw [h]
    simp
  rw [h1, toPascalCaseGo_fuel k.length ((k.take (k.length - 2)).length + 1)
    (k.take (k.length - 2)) (by omega) (by omega)]

/-- The `Id`-suffix equation of `toCamelCase`. -/
theorem toCamelCase_endsId {k : List Char} (h : lowerEndsId k = true) :
    toCamelCase k = toCamelCase (k.take (k.length - 2)) ++ ['I', 'd'] := by
  have hlen := lowerEndsId_length h
  have htl : (k.take (k.length - 2)).length = k.length - 2 := by
    simp
  simp only [toCamelCase]
  have h1 : toCamelCaseGo (k.length + 1) k
      = toCamelCaseGo k.length (k.take (k.length - 2)) ++ ['I', 'd'] := by
    simp only [toCamelCaseGo]
    rw [h]
    simp
  rw [h1, toCamelCaseGo_fuel k.length ((k.take (k.length - 2)).length + 1)
    (k.take (k.length - 2)) (by omega) (by omega)]

/-- C7 (amended): the `Id`-suffix rule holds for the `pascal` and `camel`
styles — a key whose case-insensitive form ends in `id` is rewritten by
recasing only the prefix (the key minus its last two characters) and
appending the literal suffix `Id`, and concretely
`transformCase \x7buserId: 1\x7d 'pascal' = \x7bUserId: 1\x7d` — but not
for `snake`/`kebab`, whose generic passes rewrite the suffix too (see the
`snake` counterexample). -/
theorem transformKey_id_suffix (k : List Char) (h : lowerEndsId k = true) :
    toPascalCase k = toPascalCase (k.take (k.length - 2)) ++ ['I', 'd']
    ∧ toCamelCase k = toCamelCase (k.take (k.length - 2)) ++ ['I', 'd']
    ∧ transformCase (JsValue.obj [((r"userId"), JsValue.int 1)]) (r"pascal")
        = JsValue.obj [((r"UserId"), JsValue.int 1)] :=
  ⟨toPascalCase_endsId h, toCamelCase_endsId h, rfl⟩

/-- C7 witness: the amended `Id`-suffix rule at the concrete key `userId`. -/
theorem transformKey_id_suffix_witness :
    toPascalCase (r"userId").toList
        = toPascalCase ((r"userId").toList.take ((r"userId").toList.length - 2))
          ++ ['I', 'd']
    ∧ toCamelCase (r"userId").toList
        = toCamelCase ((r"userId").toList.take ((r"userId").toList.length - 2))
          ++ ['I', 'd']
    ∧ transformCase (JsValue.obj [((r"userId"), JsValue.int 1)]) (r"pascal")
        = JsValue.obj [((r"UserId"), JsValue.int 1)] :=
  transformKey_id_suffix ((r"userId").toList) (by decide)

/-! ## Claim C8 — enum parsing and enum-typed generation -/

/-- C8: parsing `enum Role \x7bAdmin, Manager=1, Pharmacist=2\x7d` yields
members Admin = 0 (positional), Manager = 1 and Pharmacist = 2 (explicit),
and the value generated for the `Role`-typed property is one of `0`, `1`,
`2` for every faker stream and every `Math.random` stream. -/
theorem role_enum_parse_and_range :
    (parseEntityFile userRoleCs (r"User")).toOption = some userRoleEntity
    ∧ ∀ (fs : List Nat) (ms : List Rat),
        (generateValueForProperty roleProp userRoleEntity ⟨fs, ms⟩).1
          ∈ [JsValue.int 0, JsValue.int 1, JsValue.int 2] := by
  refine ⟨by decide, ?_⟩
  intro fs ms
  have hred : generateValueForProperty roleProp userRoleEntity ⟨fs, ms⟩
      = enumCall roleMembers ⟨fs, ms⟩ := rfl
  rw [hred]
  cases fs with
  | nil =>
    have h0 : (enumCall roleMembers ⟨[], ms⟩).1 = JsValue.int 0 := rfl
    rw [h0]
    simp
  | cons n t =>
    have hc : (enumCall roleMembers ⟨n :: t, ms⟩).1
        = match (roleMembers.getD (n % 3) ⟨"", some 0⟩).value with
          | some i => JsValue.int i
          | none => JsValue.nan := rfl
    rcases (by omega : n % 3 = 0 ∨ n % 3 = 1 ∨ n % 3 = 2) with h | h | h <;>
      rw [hc, h] <;> simp [roleMembers, List.getD]

/-! ## Claim C9 — `parseEntityDirectory` is failure-tolerant -/

/-- An entry of `jsAssign l k v` is an entry of `l` or the pair `(k, v)`. -/
theorem mem_jsAssign {α : Type} {p : String × α} {l : List (String × α)}
    {k : String} {v : α} (h : p ∈ jsAssign l k v) : p ∈ l ∨ p = (k, v) := by
  unfold jsAssign at h
  split at h
  · rcases List.mem_map.mp h with ⟨q, hq, he⟩
    by_cases hqk : q.1 = k
    · rw [if_pos hqk] at he
      exact Or.inr he.symm
    · rw [if_neg hqk] at he
      exact Or.inl (he ▸ hq)
  · rcases List.mem_append.mp h with h | h
    · exact Or.inl h
    · simp at h
      exact Or.inr h

/-- Every entry accumulated by the directory fold is a starting entry or
comes from a successful parse of a listed file. -/
theorem dirFold_mem : ∀ (fs : List (String × String))
    (acc : List (String × CsEntity)) (p : String × CsEntity),
    p ∈ fs.foldl (fun entities f =>
        match parseEntityFile f.2 (csBasename f.1) with
        | Except.ok e => jsAssign entities e.entityName e
        | Except.error _ => entities) acc →
    p ∈ acc ∨ ∃ f ∈ fs, parseEntityFile f.2 (csBasename f.1) = Except.ok p.2
      ∧ p.1 = p.2.entityName := by
  intro fs
  induction fs with
  | nil =>
    intro acc p h
    exact Or.inl h
  | cons g t ih =>
    intro acc p h
    rw [List.foldl_cons] at h
    cases hpg : parseEntityFile g.2 (csBasename g.1) with
    | error msg =>
      rw [show (match parseEntityFile g.2 (csBasename g.1) with
          | Except.ok e => jsAssign acc e.entityName e
          | Except.error _ => acc) = acc by rw [hpg]] at h
      rcases ih acc p h with h1 | ⟨f, hf, hok, hname⟩
      · exact Or.inl h1
      · exact Or.inr ⟨f, List.mem_cons_of_mem g hf, hok, hname⟩
    | ok e =>
      rw [show (match parseEntityFile g.2 (csBasename g.1) with
          | Except.ok e2 => jsAssign acc e2.entityName e2
          | Except.error _ => acc) = jsAssign acc e.entityName e by rw [hpg]] at h
      rcases ih _ p h with h1 | ⟨f, hf, hok, hname⟩
      · rcases mem_jsAssign h1 with h2 | h2
        · exact Or.inl h2
        · subst h2
          exact Or.inr ⟨g, List.mem_cons_self .., hpg, rfl⟩
      · exact Or.inr ⟨f, List.mem_cons_of_mem g hf, hok, hname⟩

/-- Key presence is preserved along the directory fold. -/
theorem dirFold_presence : ∀ (fs : List (String × String))
    (acc : List (String × CsEntity)) (k : String),
    (jsGet acc k).isSome = true →
    (jsGet (fs.foldl (fun entities f =>
        match parseEntityFile f.2 (csBasename f.1) with
        | Except.ok e => jsAssign entities e.entityName e
        | Except.error _ => entities) acc) k).isSome = true := by
  intro fs
  induction fs with
  | nil =>
    intro acc k h
    exact h
  | cons g t ih =>
    intro acc k h
    rw [List.foldl_cons]
    cases hpg : parseEntityFile g.2 (csBasename g.1) with
    | error msg =>
      exact ih acc k h
    | ok e =>
      have hpre : (jsGet (jsAssign acc e.entityName e) k).isSome = true := by
        by_cases hk : k = e.entityName
        · rw [hk, jsGet_assign_self]
          rfl
        · rw [jsGet_assign_ne acc e.entityName k e hk]
          exact h
      exact ih (jsAssign acc e.entityName e) k hpre

/-- A successfully parsing listed file contributes its entity name to the
directory fold's result. -/
theorem dirFold_includes : ∀ (fs : List (String × String))
    (acc : List (String × CsEntity)) (f : String × String) (e : CsEntity),
    f ∈ fs → parseEntityFile f.2 (csBasename f.1) = Except.ok e →
    (jsGet (fs.foldl (fun entities f2 =>
        match parseEntityFile f2.2 (csBasename f2.1) with
        | Except.ok e2 => jsAssign entities e2.entityName e2
        | Except.error _ => entities) acc) e.entityName).isSome = true := by
  intro fs
  induction fs with
  | nil =>
    intro acc f e hf _
    cases hf
  | cons g t ih =>
    intro acc f e hf hok
    rw [List.foldl_cons]
    rcases List.mem_cons.mp hf with rfl | hft
    · rw [show (match parseEntityFile f.2 (csBasename f.1) with
          | Except.ok e2 => jsAssign acc e2.entityName e2
          | Except.error _ => acc) = jsAssign acc e.entityName e by rw [hok]]
      apply dirFold_presence
      rw [jsGet_assign_self]
      rfl
    · exact ih _ f e hft hok

/-- C9: `parseEntityDirectory` never propagates an individual parse
failure — every entry of its result comes from a `.cs` file whose parse
succeeded (so failing files are omitted), every `.cs` file whose parse
succeeds still contributes its entity name to the result, and on the
concrete directory containing the class-less `Broken.cs` the other two
entities are parsed and returned. -/
theorem parseEntityDirectory_skips_failures (files : List (String × String)) :
    (∀ p ∈ parseEntityDirectory files,
        ∃ f ∈ files, jsEndsWith f.1 (r".cs") = true
          ∧ parseEntityFile f.2 (csBasename f.1) = Except.ok p.2
          ∧ p.1 = p.2.entityName)
    ∧ (∀ f ∈ files, jsEndsWith f.1 (r".cs") = true →
        ∀ e, parseEntityFile f.2 (csBasename f.1) = Except.ok e →
          (jsGet (parseEntityDirectory files) e.entityName).isSome = true)
    ∧ (parseEntityDirectory [((r"Category.cs"), categoryCs),
        ((r"Broken.cs"), brokenCs), ((r"Product.cs"), productCs),
        ((r"notes.txt"), (r"x"))]).map Prod.fst
      = [(r"Category"), (r"Product")] := by
  refine ⟨?_, ?_, by decide⟩
  · intro p hp
    rcases dirFold_mem (files.filter fun f => jsEndsWith f.1 (r".cs")) [] p hp
      with h | ⟨f, hf, hok, hname⟩
    · cases h
    · have hm := List.mem_filter.mp hf
      exact ⟨f, hm.1, hm.2, hok, hname⟩
  · intro f hf hcs e hok
    exact dirFold_includes (files.filter fun f2 => jsEndsWith f2.1 (r".cs")) [] f e
      (List.mem_filter.mpr ⟨hf, hcs⟩) hok

end SetupData
